import Mathlib

/-!
Shallow embedding of the recipe persistence core of `eatinn`
(`internal/data/recipes.go`, `internal/data/models.go` and the SQL schema in
`migrations/000003_create_recipes_table.up.sql` plus the check-constraint
migration).  The relational store is modelled as an explicit state (`DB`)
holding the rows of each table together with the sequence counters; SQL
statements become pure functions `DB → Except Err (α × DB)`, and the
transactions of `Insert`/`Update` run their statements against a scratch
state that is committed only at the end, with a fault oracle `fail` that can
make any statement fail (modelling connectivity errors and the like).
Durations are `Int` nanoseconds as in Go; the PostgreSQL `interval` columns
are modelled at the value level as `Option Int` (`none` = SQL NULL).
The `users`/`tokens` tables and the `tags` tables are not touched by any of
the modelled operations and are omitted.
-/

namespace Eatinn

/-- One entry of `Recipe.Ingredients` (`IngredientEntry` in recipes.go). -/
structure IngredientEntry where
  id : Int
  ingredient : String
  amount : String
  unit : String
  optional : Bool
deriving Repr, DecidableEq

/-- One step of `Recipe.Instructions` (`InstructionStep` in recipes.go). -/
structure InstructionStep where
  id : Int
  stepNumber : Int
  text : String
  notes : String
  imageURLs : List String
deriving Repr, DecidableEq

/-- The `Recipe` aggregate of recipes.go.  Go `nil` slices are distinguished
from empty slices by using `Option (List _)`: `none` is a nil slice. -/
structure Recipe where
  id : Int
  createdAt : Nat
  name : String
  description : String
  ingredients : Option (List IngredientEntry)
  requiredEquipment : Option (List String)
  instructions : Option (List InstructionStep)
  notes : String
  displayURL : String
  sourceURL : String
  prepTime : Int
  activeTime : Int
  creator : String
  public : Bool
  servings : Int
  version : Int
deriving Repr, DecidableEq

/-- The `recipe_image_type` enum of the schema. -/
inductive ImageType where
  | thumbnail
  | main
  | step
deriving Repr, DecidableEq

def ImageType.isMain : ImageType → Bool
  | .main => true
  | _ => false

def ImageType.isStep : ImageType → Bool
  | .step => true
  | _ => false

/-- A row of the `recipes` table.  `instructionsJson` is the `jsonb` blob the
insert path writes (and the update path leaves untouched); it is never read
back. -/
structure RecipeRow where
  id : Int
  createdAt : Nat
  name : String
  description : String
  instructionsJson : Option (List InstructionStep)
  notes : String
  sourceURL : String
  prepTime : Option Int
  activeTime : Option Int
  servings : Option Int
  version : Int
deriving Repr, DecidableEq

/-- A row of the deduplicated `ingredients` reference table. -/
structure IngredientRow where
  id : Int
  name : String
deriving Repr, DecidableEq

/-- A row of the deduplicated `equipment` reference table. -/
structure EquipmentRow where
  id : Int
  name : String
deriving Repr, DecidableEq

/-- A row of the `recipe_ingredients` junction table
(primary key `(recipe_id, ingredient_id)`). -/
structure RecipeIngredientRow where
  recipeId : Int
  ingredientId : Int
  quantity : String
  unit : String
  optional : Bool
deriving Repr, DecidableEq

/-- A row of the `recipe_equipment` junction table
(primary key `(recipe_id, equipment_id)`). -/
structure RecipeEquipmentRow where
  recipeId : Int
  equipmentId : Int
deriving Repr, DecidableEq

/-- A row of the `recipe_instructions` table. -/
structure InstructionRow where
  id : Int
  recipeId : Int
  stepNumber : Int
  text : String
  notes : String
deriving Repr, DecidableEq

/-- A row of the `recipe_images` table. -/
structure ImageRow where
  id : Int
  recipeId : Int
  url : String
  imageType : ImageType
deriving Repr, DecidableEq

/-- A row of the `recipe_instruction_images` junction table
(primary key `(instruction_id, image_id)`). -/
structure InstructionImageRow where
  instructionId : Int
  imageId : Int
deriving Repr, DecidableEq

/-- The relational store: the rows of every table touched by the recipe
operations, the `bigserial` sequence counters, and a fixed clock used for
`created_at DEFAULT NOW()`. -/
structure DB where
  recipes : List RecipeRow
  ingredients : List IngredientRow
  equipment : List EquipmentRow
  recipeIngredients : List RecipeIngredientRow
  recipeEquipment : List RecipeEquipmentRow
  recipeInstructions : List InstructionRow
  recipeImages : List ImageRow
  instructionImages : List InstructionImageRow
  nextRecipeId : Int
  nextIngredientId : Int
  nextEquipmentId : Int
  nextInstructionId : Int
  nextImageId : Int
  now : Nat
deriving Repr, DecidableEq

def emptyDB : DB :=
  { recipes := [], ingredients := [], equipment := [], recipeIngredients := []
    recipeEquipment := [], recipeInstructions := [], recipeImages := []
    instructionImages := [], nextRecipeId := 1, nextIngredientId := 1
    nextEquipmentId := 1, nextInstructionId := 1, nextImageId := 1, now := 0 }

/-- The error taxonomy of `internal/data`: `ErrRecordNotFound`,
`ErrEditConflict`, and every other store-layer error collapsed to
`storeErr`. -/
inductive Err where
  | notFound
  | editConflict
  | storeErr
deriving Repr, DecidableEq

/-- Go helper `nilIfZero` (used for `servings`): the zero value maps to SQL
NULL. -/
def nilIfZero (v : Int) : Option Int :=
  if v = 0 then none else some v

/-- Go `durationToInterval`: a zero duration is written as SQL NULL, any
other duration as a PostgreSQL interval carrying the same length of time
(the Go code renders it as a seconds string; the interval is modelled at the
value level, in nanoseconds). -/
def durationToInterval (d : Int) : Option Int :=
  if d = 0 then none else some d

/-- The NULL handling of the read paths (`if prepTime.Valid { ... }`): a NULL
interval column reads back as the zero duration. -/
def intervalToDuration (o : Option Int) : Int :=
  o.getD 0

/-- The check constraints added by the constraint migration:
`prep_time >= interval '0'`, `active_time >= interval '0'`, `servings > 0`
(NULL passes a check). -/
def rowChecksOk (prep active servings : Option Int) : Bool :=
  (match prep with | none => true | some p => decide (0 ≤ p)) &&
  (match active with | none => true | some a => decide (0 ≤ a)) &&
  (match servings with | none => true | some s => decide (0 < s))

/-! ### Primitive statements

Each SQL statement of the write paths becomes a function
`DB → Except Err (α × DB)`. -/

/-- `INSERT INTO recipes ... RETURNING id, created_at, version`.  Fails when
a check constraint is violated. -/
def insertRecipeRow (r : Recipe) (db : DB) : Except Err ((Int × Nat × Int) × DB) :=
  let prep := durationToInterval r.prepTime
  let active := durationToInterval r.activeTime
  let servings := nilIfZero r.servings
  if rowChecksOk prep active servings then
    let id := db.nextRecipeId
    let row : RecipeRow :=
      { id := id, createdAt := db.now, name := r.name, description := r.description
        instructionsJson := r.instructions, notes := r.notes, sourceURL := r.sourceURL
        prepTime := prep, activeTime := active, servings := servings, version := 1 }
    .ok ((id, db.now, 1), { db with recipes := db.recipes ++ [row], nextRecipeId := id + 1 })
  else
    .error .storeErr

/-- `INSERT INTO ingredients (name) VALUES ($1) ON CONFLICT (name) DO UPDATE
SET name = EXCLUDED.name RETURNING id`: insert-or-return-existing-id keyed by
the unique name. -/
def upsertIngredient (name : String) (db : DB) : Except Err (Int × DB) :=
  match db.ingredients.find? (fun row => row.name == name) with
  | some row => .ok (row.id, db)
  | none =>
    let id := db.nextIngredientId
    .ok (id, { db with ingredients := db.ingredients ++ [{ id := id, name := name }]
                       nextIngredientId := id + 1 })

/-- `INSERT INTO recipe_ingredients ...`; violates the primary key
`(recipe_id, ingredient_id)` when such a junction row already exists. -/
def insertRecipeIngredient (rid iid : Int) (quantity unit : String) (optional : Bool)
    (db : DB) : Except Err (Unit × DB) :=
  if db.recipeIngredients.any (fun x => x.recipeId == rid && x.ingredientId == iid) then
    .error .storeErr
  else
    .ok ((), { db with recipeIngredients := db.recipeIngredients ++
      [{ recipeId := rid, ingredientId := iid, quantity := quantity,
         unit := unit, optional := optional }] })

/-- Upsert into the `equipment` reference table, same pattern as
`upsertIngredient`. -/
def upsertEquipment (name : String) (db : DB) : Except Err (Int × DB) :=
  match db.equipment.find? (fun row => row.name == name) with
  | some row => .ok (row.id, db)
  | none =>
    let id := db.nextEquipmentId
    .ok (id, { db with equipment := db.equipment ++ [{ id := id, name := name }]
                       nextEquipmentId := id + 1 })

/-- `INSERT INTO recipe_equipment ...`; primary key `(recipe_id, equipment_id)`. -/
def insertRecipeEquipment (rid eid : Int) (db : DB) : Except Err (Unit × DB) :=
  if db.recipeEquipment.any (fun x => x.recipeId == rid && x.equipmentId == eid) then
    .error .storeErr
  else
    .ok ((), { db with recipeEquipment := db.recipeEquipment ++
      [{ recipeId := rid, equipmentId := eid }] })

/-- `INSERT INTO recipe_instructions ... RETURNING id`. -/
def insertInstructionRow (rid stepNumber : Int) (text notes : String) (db : DB) :
    Except Err (Int × DB) :=
  let id := db.nextInstructionId
  .ok (id, { db with
    recipeInstructions := db.recipeInstructions ++
      [{ id := id, recipeId := rid, stepNumber := stepNumber, text := text, notes := notes }],
    nextInstructionId := id + 1 })

/-- `INSERT INTO recipe_images ... RETURNING id`. -/
def insertImageRow (rid : Int) (url : String) (ty : ImageType) (db : DB) :
    Except Err (Int × DB) :=
  let id := db.nextImageId
  .ok (id, { db with
    recipeImages := db.recipeImages ++
      [{ id := id, recipeId := rid, url := url, imageType := ty }],
    nextImageId := id + 1 })

/-- `INSERT INTO recipe_instruction_images ...`; primary key
`(instruction_id, image_id)`. -/
def insertInstructionImageRow (iid imgId : Int) (db : DB) : Except Err (Unit × DB) :=
  if db.instructionImages.any (fun l => l.instructionId == iid && l.imageId == imgId) then
    .error .storeErr
  else
    .ok ((), { db with instructionImages := db.instructionImages ++
      [{ instructionId := iid, imageId := imgId }] })

/-- The optimistic-locking statement of `Update`:
`UPDATE recipes SET ..., version = version + 1 WHERE id = $8 AND version = $9
RETURNING version`.  No matching row is the `sql.ErrNoRows` case that the Go
code maps to `ErrEditConflict`; a matching row is rewritten (subject to the
check constraints) with its version incremented. -/
def updateRecipeRow (r : Recipe) (db : DB) : Except Err (Int × DB) :=
  let prep := durationToInterval r.prepTime
  let active := durationToInterval r.activeTime
  let servings := nilIfZero r.servings
  if db.recipes.any (fun row => row.id == r.id && row.version == r.version) then
    if rowChecksOk prep active servings then
      .ok (r.version + 1, { db with
        recipes := db.recipes.map (fun row =>
          if row.id == r.id && row.version == r.version then
            { row with
              name := r.name, description := r.description, notes := r.notes,
              sourceURL := r.sourceURL, prepTime := prep, activeTime := active,
              servings := servings, version := row.version + 1 }
          else row) })
    else .error .storeErr
  else .error .editConflict

/-- `DELETE FROM recipe_ingredients WHERE recipe_id = $1`. -/
def deleteRecipeIngredients (rid : Int) (db : DB) : Except Err (Unit × DB) :=
  .ok ((), { db with recipeIngredients :=
    db.recipeIngredients.filter (fun x => !(x.recipeId == rid)) })

/-- `DELETE FROM recipe_equipment WHERE recipe_id = $1`. -/
def deleteRecipeEquipment (rid : Int) (db : DB) : Except Err (Unit × DB) :=
  .ok ((), { db with recipeEquipment :=
    db.recipeEquipment.filter (fun x => !(x.recipeId == rid)) })

/-- `DELETE FROM recipe_instructions WHERE recipe_id = $1`.  The
`ON DELETE CASCADE` on `recipe_instruction_images.instruction_id` removes the
junction rows of the deleted instructions; the image rows themselves live in
`recipe_images` and are not removed. -/
def deleteRecipeInstructions (rid : Int) (db : DB) : Except Err (Unit × DB) :=
  let removed := db.recipeInstructions.filter (fun x => x.recipeId == rid)
  .ok ((), { db with
    recipeInstructions := db.recipeInstructions.filter (fun x => !(x.recipeId == rid)),
    instructionImages := db.instructionImages.filter
      (fun l => !(removed.any (fun x => x.id == l.instructionId))) })

/-- `DELETE FROM recipe_images WHERE recipe_id = $1 AND image_type = 'main'`. -/
def deleteMainImage (rid : Int) (db : DB) : Except Err (Unit × DB) :=
  .ok ((), { db with
    recipeImages := db.recipeImages.filter
      (fun im => !(im.recipeId == rid && im.imageType.isMain)) })

/-! ### Transactions

A transaction threads a scratch state `St` (database plus a statement
counter); the fault oracle `fail` makes statement `n` fail with an opaque
store error when `fail n` is true.  An error anywhere abandons the scratch
state (`defer tx.Rollback()`); reaching the end commits it. -/

/-- Scratch state of an open transaction. -/
structure St where
  db : DB
  stmts : Nat

/-- Run one statement inside a transaction, consulting the fault oracle. -/
def runStmt (fail : Nat → Bool) (f : DB → Except Err (α × DB)) (s : St) :
    Except Err (α × St) :=
  if fail s.stmts then .error .storeErr
  else
    match f s.db with
    | .error e => .error e
    | .ok (a, db) => .ok (a, { db := db, stmts := s.stmts + 1 })

/-- The ingredient loop of `Insert`/`Update`: upsert the name, then link it. -/
def insertIngredientsLoop (fail : Nat → Bool) (rid : Int) :
    List IngredientEntry → St → Except Err St
  | [], s => .ok s
  | entry :: rest, s => do
    let (iid, s) ← runStmt fail (upsertIngredient entry.ingredient) s
    let (_, s) ← runStmt fail
      (insertRecipeIngredient rid iid entry.amount entry.unit entry.optional) s
    insertIngredientsLoop fail rid rest s

/-- The equipment loop of `Insert`/`Update`. -/
def insertEquipmentLoop (fail : Nat → Bool) (rid : Int) :
    List String → St → Except Err St
  | [], s => .ok s
  | equip :: rest, s => do
    let (eid, s) ← runStmt fail (upsertEquipment equip) s
    let (_, s) ← runStmt fail (insertRecipeEquipment rid eid) s
    insertEquipmentLoop fail rid rest s

/-- The per-step image loop: insert a `step` image row, then the
instruction-image junction row. -/
def insertStepImagesLoop (fail : Nat → Bool) (rid iid : Int) :
    List String → St → Except Err St
  | [], s => .ok s
  | url :: rest, s => do
    let (imgId, s) ← runStmt fail (insertImageRow rid url .step) s
    let (_, s) ← runStmt fail (insertInstructionImageRow iid imgId) s
    insertStepImagesLoop fail rid iid rest s

/-- The instruction loop of `Insert`/`Update`: insert the step row, then its
images. -/
def insertInstructionsLoop (fail : Nat → Bool) (rid : Int) :
    List InstructionStep → St → Except Err St
  | [], s => .ok s
  | step :: rest, s => do
    let (iid, s) ← runStmt fail
      (insertInstructionRow rid step.stepNumber step.text step.notes) s
    let s ← insertStepImagesLoop fail rid iid step.imageURLs s
    insertInstructionsLoop fail rid rest s

/-- Insert one `main` image row when a display URL is present. -/
def insertDisplayImage (fail : Nat → Bool) (rid : Int) (displayURL : String)
    (s : St) : Except Err St :=
  if displayURL == "" then .ok s
  else do
    let (_, s) ← runStmt fail (insertImageRow rid displayURL .main) s
    .ok s

/-- Steps 2-5 of `Insert` (also reused verbatim by `Update` after its
deletes): ingredients, equipment, instructions with images, display image. -/
def insertChildren (fail : Nat → Bool) (rid : Int) (r : Recipe) (s : St) :
    Except Err St := do
  let s ← insertIngredientsLoop fail rid (r.ingredients.getD []) s
  let s ← insertEquipmentLoop fail rid (r.requiredEquipment.getD []) s
  let s ← insertInstructionsLoop fail rid (r.instructions.getD []) s
  insertDisplayImage fail rid r.displayURL s

/-- The body of the `Insert` transaction; returns the assigned
`(id, created_at, version)`. -/
def insertBody (fail : Nat → Bool) (db : DB) (r : Recipe) :
    Except Err ((Int × Nat × Int) × St) := do
  let (assigned, s) ← runStmt fail (insertRecipeRow r) { db := db, stmts := 0 }
  let s ← insertChildren fail assigned.1 r s
  .ok (assigned, s)

/-- `RecipeModel.Insert`: the multi-table insert inside one transaction.  On
any error the transaction is rolled back and the store keeps its prior
state; the final successful statement is the commit (also subject to the
fault oracle). -/
def RecipeModel.Insert (fail : Nat → Bool) (db : DB) (r : Recipe) :
    Except Err (Int × Nat × Int) × DB :=
  match insertBody fail db r with
  | .error e => (.error e, db)
  | .ok (assigned, s) =>
    if fail s.stmts then (.error .storeErr, db) else (.ok assigned, s.db)

/-- The body of the `Update` transaction: optimistic-lock update of the
recipe row, delete of all child rows (junctions, instructions with their
image links, the `main` image), then the re-insert of the children; returns
the new version. -/
def updateBody (fail : Nat → Bool) (db : DB) (r : Recipe) :
    Except Err (Int × St) := do
  let (v, s) ← runStmt fail (updateRecipeRow r) { db := db, stmts := 0 }
  let (_, s) ← runStmt fail (deleteRecipeIngredients r.id) s
  let (_, s) ← runStmt fail (deleteRecipeEquipment r.id) s
  let (_, s) ← runStmt fail (deleteRecipeInstructions r.id) s
  let (_, s) ← runStmt fail (deleteMainImage r.id) s
  let s ← insertChildren fail r.id r s
  .ok (v, s)

/-- `RecipeModel.Update`: full-replace update inside one transaction with
optimistic locking; rolled back entirely on any error. -/
def RecipeModel.Update (fail : Nat → Bool) (db : DB) (r : Recipe) :
    Except Err Int × DB :=
  match updateBody fail db r with
  | .error e => (.error e, db)
  | .ok (v, s) =>
    if fail s.stmts then (.error .storeErr, db) else (.ok v, s.db)

/-- `RecipeModel.Delete`: ids below 1 fail fast; a missing row is
`ErrRecordNotFound`; otherwise the recipe row is deleted and the schema's
`ON DELETE CASCADE` removes its junction rows, instructions, images and
instruction-image links. -/
def RecipeModel.Delete (db : DB) (id : Int) : Except Err Unit × DB :=
  if id < 1 then (.error .notFound, db)
  else if db.recipes.any (fun row => row.id == id) then
    let removedInstr := db.recipeInstructions.filter (fun x => x.recipeId == id)
    let removedImgs := db.recipeImages.filter (fun im => im.recipeId == id)
    (.ok (), { db with
      recipes := db.recipes.filter (fun row => !(row.id == id)),
      recipeIngredients := db.recipeIngredients.filter (fun x => !(x.recipeId == id)),
      recipeEquipment := db.recipeEquipment.filter (fun x => !(x.recipeId == id)),
      recipeInstructions := db.recipeInstructions.filter (fun x => !(x.recipeId == id)),
      recipeImages := db.recipeImages.filter (fun im => !(im.recipeId == id)),
      instructionImages := db.instructionImages.filter (fun l =>
        !(removedInstr.any (fun x => x.id == l.instructionId)) &&
        !(removedImgs.any (fun im => im.id == l.imageId))) })
  else (.error .notFound, db)

/-! ### Read path helpers -/

/-- Insert into a sorted list, keeping the new element after equal keys'
earlier occurrences is not needed: `le` non-strict makes the sort stable. -/
def insertSorted (le : α → α → Bool) (x : α) : List α → List α
  | [] => [x]
  | y :: ys => if le x y then x :: y :: ys else y :: insertSorted le x ys

/-- Stable insertion sort, modelling SQL `ORDER BY`. -/
def insSort (le : α → α → Bool) : List α → List α
  | [] => []
  | x :: xs => insertSorted le x (insSort le xs)

/-- Byte-wise lexicographic comparison on char lists, modelling text
ordering. -/
def charListLe : List Char → List Char → Bool
  | [], _ => true
  | _ :: _, [] => false
  | a :: as, b :: bs => if a = b then charListLe as bs else decide (a < b)

/-- Text `ORDER BY` comparison. -/
def strLe (a b : String) : Bool :=
  charListLe a.data b.data

/-- The ingredients query of `Get`: junction rows of the recipe joined to the
reference table, ordered by ingredient name. -/
def readIngredients (db : DB) (rid : Int) : List IngredientEntry :=
  let joined := db.recipeIngredients.filterMap (fun ri =>
    if ri.recipeId == rid then
      (db.ingredients.find? (fun i => i.id == ri.ingredientId)).map (fun i =>
        { id := i.id, ingredient := i.name, amount := ri.quantity
          unit := ri.unit, optional := ri.optional })
    else none)
  insSort (fun a b => strLe a.ingredient b.ingredient) joined

/-- The equipment query of `Get`: names of the recipe's equipment, ordered by
name. -/
def readEquipment (db : DB) (rid : Int) : List String :=
  let joined := db.recipeEquipment.filterMap (fun re =>
    if re.recipeId == rid then
      (db.equipment.find? (fun e => e.id == re.equipmentId)).map (fun e => e.name)
    else none)
  insSort strLe joined

/-- The per-step image query of `Get`: the step's image URLs ordered by image
id (insertion order). -/
def readStepImages (db : DB) (iid : Int) : List String :=
  let joined := db.instructionImages.filterMap (fun l =>
    if l.instructionId == iid then
      (db.recipeImages.find? (fun im => im.id == l.imageId)).map (fun im =>
        (im.id, im.url))
    else none)
  (insSort (fun a b => decide (a.1 ≤ b.1)) joined).map (fun p => p.2)

/-- `RecipeModel.Get`: fetch one full aggregate.  The second component counts
the store queries issued (ids below 1 fail fast without touching the
store). -/
def RecipeModel.Get (db : DB) (id : Int) : Except Err Recipe × Nat :=
  if id < 1 then (.error .notFound, 0)
  else
    match db.recipes.find? (fun row => row.id == id) with
    | none => (.error .notFound, 1)
    | some row =>
      let ingredients := readIngredients db id
      let equipment := readEquipment db id
      let instrRows := insSort (fun a b => decide (a.stepNumber ≤ b.stepNumber))
        (db.recipeInstructions.filter (fun x => x.recipeId == id))
      let instructions := instrRows.map (fun x =>
        ({ id := x.id, stepNumber := x.stepNumber, text := x.text, notes := x.notes
           imageURLs := readStepImages db x.id } : InstructionStep))
      let displayURL :=
        match db.recipeImages.find? (fun im => im.recipeId == id && im.imageType.isMain) with
        | some im => im.url
        | none => ""
      (.ok { id := row.id, createdAt := row.createdAt, name := row.name
             description := row.description
             ingredients := some ingredients
             requiredEquipment := some equipment
             instructions := some instructions
             notes := row.notes, displayURL := displayURL, sourceURL := row.sourceURL
             prepTime := intervalToDuration row.prepTime
             activeTime := intervalToDuration row.activeTime
             creator := "", public := false
             servings := row.servings.getD 0
             version := row.version },
       4 + instrRows.length + 1)

/-! ### Filtered lister -/

/-- The filter block of the list endpoint (the `Filters` struct lives in a
file outside the extracted sources; its fields are those the handler and
`GetAll` use). -/
structure Filters where
  page : Int
  pageSize : Int
  sort : String
  sortSafelist : List String
deriving Repr

/-- Modelled from the spec: the pagination metadata block (current page, page
size, first/last page, total records) produced by the `calculateMetadata`
helper, which is not among the extracted sources. -/
structure Metadata where
  currentPage : Int
  pageSize : Int
  firstPage : Int
  lastPage : Int
  totalRecords : Int
deriving Repr, DecidableEq

/-- Modelled from the spec: `calculateMetadata` computes the metadata block
from the pre-pagination total; with zero matches the last page is defined as
1. -/
def calculateMetadata (totalRecords page pageSize : Int) : Metadata :=
  if totalRecords = 0 then
    { currentPage := page, pageSize := pageSize, firstPage := 1, lastPage := 1
      totalRecords := 0 }
  else
    { currentPage := page, pageSize := pageSize, firstPage := 1
      lastPage := (totalRecords + pageSize - 1) / pageSize
      totalRecords := totalRecords }

/-- SQL `LIKE` pattern matching over char lists (`%`, `_`, backslash
escape). -/
def likeMatch : List Char → List Char → Bool
  | [], [] => true
  | [], _ :: _ => false
  | '%' :: ps, [] => likeMatch ps []
  | '%' :: ps, c :: ts => likeMatch ps (c :: ts) || likeMatch ('%' :: ps) ts
  | '\\' :: p :: ps, c :: ts => p == c && likeMatch ps ts
  | '\\' :: _ :: _, [] => false
  | '\\' :: [], [] => false
  | '_' :: ps, _ :: ts => likeMatch ps ts
  | '_' :: _, [] => false
  | p :: ps, c :: ts => p == c && likeMatch ps ts
  | _ :: _, [] => false
termination_by p t => p.length + t.length

/-- `ILIKE`: case-insensitive `LIKE`. -/
def ilike (pattern text : String) : Bool :=
  likeMatch pattern.toLower.data text.toLower.data

/-- The ingredient membership subquery of `GetAll`: the recipe id appears in
the ingredient join where the ingredient name `ILIKE`-matches any of the
provided substrings. -/
def ingredientFilterHit (db : DB) (rid : Int) (pats : List String) : Bool :=
  db.recipeIngredients.any (fun ri =>
    ri.recipeId == rid &&
    db.ingredients.any (fun i =>
      i.id == ri.ingredientId &&
      pats.any (fun pat => ilike ("%" ++ pat ++ "%") i.name)))

/-- The equipment membership subquery of `GetAll`. -/
def equipmentFilterHit (db : DB) (rid : Int) (pats : List String) : Bool :=
  db.recipeEquipment.any (fun re =>
    re.recipeId == rid &&
    db.equipment.any (fun e =>
      e.id == re.equipmentId &&
      pats.any (fun pat => ilike ("%" ++ pat ++ "%") e.name)))

/-- The WHERE clause of `GetAll`'s filtered CTE.  A NULL interval column
fails a nonzero `<=` time filter (SQL three-valued logic). -/
def getAllFilter (db : DB) (name : String) (ingredients equipment : List String)
    (prepTime activeTime : Int) (row : RecipeRow) : Bool :=
  (name == "" || ilike ("%" ++ name ++ "%") row.name) &&
  (prepTime == 0 ||
    (match row.prepTime with | some p => decide (p ≤ prepTime) | none => false)) &&
  (activeTime == 0 ||
    (match row.activeTime with | some a => decide (a ≤ activeTime) | none => false)) &&
  (ingredients.isEmpty || ingredientFilterHit db row.id ingredients) &&
  (equipment.isEmpty || equipmentFilterHit db row.id equipment)

/-- Comparison for one resolved sort column over the joined
`(recipe row, display url)` pairs.  NULL intervals sort as the largest value
(PostgreSQL default NULLS LAST for ascending order). -/
def optIntLe (a b : Option Int) : Bool :=
  match a, b with
  | none, none => true
  | none, some _ => false
  | some _, none => true
  | some x, some y => decide (x ≤ y)

def sortColumnLe (col : String) (a b : RecipeRow × Option String) : Bool :=
  if col == "id" then decide (a.1.id ≤ b.1.id)
  else if col == "name" then strLe a.1.name b.1.name
  else if col == "prep_time" then optIntLe a.1.prepTime b.1.prepTime
  else optIntLe a.1.activeTime b.1.activeTime

/-- Resolve the sort key of `GetAll`: a `-` prefix flips the direction
(`strings.HasPrefix`/`TrimPrefix` on the one-character prefix), the four
safelisted columns map to their comparisons, and anything else falls back to
ascending id. -/
def resolveLe (sort : String) : (RecipeRow × Option String) → (RecipeRow × Option String) → Bool :=
  let desc := sort.data.head? == some '-'
  let col := if desc then String.mk (sort.data.drop 1) else sort
  if col == "id" || col == "name" || col == "prep_time" || col == "active_time" then
    if desc then fun a b => sortColumnLe col b a else sortColumnLe col
  else
    fun a b => decide (a.1.id ≤ b.1.id)

/-- Ascending id comparison over raw recipe rows (the resolved `ORDER BY id`
restricted to the row component). -/
def rowIdLe (a b : RecipeRow) : Bool := decide (a.id ≤ b.id)

/-- `RecipeModel.GetAll`: filtered CTE, left join of the `main` image, window
count, resolved ORDER BY, and `LIMIT page_size OFFSET (page-1)*page_size`.
The scanned total starts at 0 and is only overwritten when a row is
returned.  A negative LIMIT or OFFSET is a store error. -/
def RecipeModel.GetAll (db : DB) (name : String) (ingredients equipment : List String)
    (prepTime activeTime : Int) (filters : Filters) :
    Except Err (List Recipe × Metadata) :=
  let filtered := db.recipes.filter
    (getAllFilter db name ingredients equipment prepTime activeTime)
  let joined := filtered.flatMap (fun row =>
    let mains := db.recipeImages.filter
      (fun im => im.recipeId == row.id && im.imageType.isMain)
    if mains.isEmpty then [(row, (none : Option String))]
    else mains.map (fun im => (row, some im.url)))
  let sorted := insSort (resolveLe filters.sort) joined
  if filters.pageSize < 0 || (filters.page - 1) * filters.pageSize < 0 then
    .error .storeErr
  else
    let rows := (sorted.drop ((filters.page - 1) * filters.pageSize).toNat).take
      filters.pageSize.toNat
    let totalRecords : Int := if rows.isEmpty then 0 else (sorted.length : Int)
    let out := rows.map (fun rw =>
      ({ id := rw.1.id, createdAt := rw.1.createdAt, name := rw.1.name
         description := rw.1.description
         ingredients := none, requiredEquipment := none, instructions := none
         notes := "", displayURL := rw.2.getD "", sourceURL := ""
         prepTime := intervalToDuration rw.1.prepTime
         activeTime := intervalToDuration rw.1.activeTime
         creator := "", public := false
         servings := rw.1.servings.getD 0
         version := rw.1.version } : Recipe))
    .ok (out, calculateMetadata totalRecords filters.page filters.pageSize)

/-! ### Operation sequences and reachable states -/

/-- One store operation, with its fault oracle where the operation is
transactional. -/
inductive Op where
  | insert (fail : Nat → Bool) (r : Recipe)
  | update (fail : Nat → Bool) (r : Recipe)
  | delete (id : Int)

/-- The state after applying one operation (its result discarded). -/
def applyOp (db : DB) : Op → DB
  | .insert fail r => (RecipeModel.Insert fail db r).2
  | .update fail r => (RecipeModel.Update fail db r).2
  | .delete id => (RecipeModel.Delete db id).2

/-- The state after a sequence of operations. -/
def execOps (db : DB) (ops : List Op) : DB :=
  ops.foldl applyOp db

/-- The fault-free oracle. -/
def noFail : Nat → Bool := fun _ => false

/-- The always-failing oracle. -/
def failAll : Nat → Bool := fun _ => true

/-- The validation of `ValidateRecipe`: name provided and at most 500 bytes. -/
def ValidRecipe (r : Recipe) : Prop :=
  r.name ≠ "" ∧ r.name.utf8ByteSize ≤ 500

/-! ### Concrete fixtures used to exercise the properties -/

/-- The success projection of a `Get` result. -/
def getOk : Except Err Recipe → Option Recipe
  | .ok g => some g
  | .error _ => none

/-- Operation results are comparable value-wise. -/
instance {ε α : Type _} [DecidableEq ε] [DecidableEq α] :
    DecidableEq (Except ε α) := fun x y =>
  match x, y with
  | .error e, .error e' =>
    if h : e = e' then .isTrue (by rw [h])
    else .isFalse (by intro hc; injection hc with h'; exact h h')
  | .error _, .ok _ => .isFalse (by intro hc; exact Except.noConfusion hc)
  | .ok _, .error _ => .isFalse (by intro hc; exact Except.noConfusion hc)
  | .ok a, .ok a' =>
    if h : a = a' then .isTrue (by rw [h])
    else .isFalse (by intro hc; injection hc with h'; exact h h')

/-- The row rewrite performed by the optimistic-lock UPDATE statement on its
matching row. -/
def updRow (r : Recipe) (row : RecipeRow) : RecipeRow :=
  { row with
    name := r.name, description := r.description, notes := r.notes
    sourceURL := r.sourceURL, prepTime := durationToInterval r.prepTime
    activeTime := durationToInterval r.activeTime
    servings := nilIfZero r.servings, version := row.version + 1 }

/-- A minimal payload all concrete instances are variations of. -/
def recipeBase : Recipe :=
  { id := 0, createdAt := 0, name := "pasta", description := "", ingredients := none
    requiredEquipment := none, instructions := none, notes := "", displayURL := ""
    sourceURL := "", prepTime := 0, activeTime := 0, creator := "", public := false
    servings := 0, version := 0 }

/-- A minimal stored recipe row all concrete instances are variations of. -/
def rowBase : RecipeRow :=
  { id := 0, createdAt := 0, name := "r", description := "", instructionsJson := none
    notes := "", sourceURL := "", prepTime := none, activeTime := none
    servings := none, version := 1 }

/-- A childless seed payload. -/
def rSeed : Recipe :=
  { recipeBase with name := "seed", prepTime := 60, activeTime := 30, servings := 2 }

/-- The store after one fault-free insert of the seed payload. -/
def dbSeed : DB := execOps emptyDB [.insert noFail rSeed]

/-- A childless update payload for the seeded recipe. -/
def rUpd1 : Recipe := { recipeBase with id := 1, version := 1, name := "v2" }

/-- An update payload naming the ingredient `salt` twice. -/
def rDup : Recipe :=
  { recipeBase with
    id := 1, version := 1, name := "dup"
    ingredients := some
      [{ id := 0, ingredient := "salt", amount := "1", unit := "tsp", optional := false },
       { id := 0, ingredient := "salt", amount := "2", unit := "tsp", optional := false }] }

/-- A payload with children in every collection. -/
def rRound : Recipe :=
  { recipeBase with
    name := "stew", description := "d", notes := "n"
    displayURL := "http://img/main.png", sourceURL := "s"
    prepTime := 60, activeTime := 30, servings := 4
    ingredients := some
      [{ id := 0, ingredient := "beef", amount := "1", unit := "lb", optional := false },
       { id := 0, ingredient := "carrot", amount := "2", unit := "", optional := true }]
    requiredEquipment := some ["pot", "knife"]
    instructions := some
      [{ id := 0, stepNumber := 1, text := "chop", notes := "", imageURLs := ["http://img/s1.png"] },
       { id := 0, stepNumber := 2, text := "cook", notes := "nn", imageURLs := [] }] }

/-- A payload whose equipment list is not name-sorted and whose creator is
set. -/
def rFlip : Recipe :=
  { recipeBase with
    name := "flip", creator := "me"
    requiredEquipment := some ["pot", "board"] }

/-- A fault oracle failing the fourth statement of a transaction. -/
def fail3 : Nat → Bool := fun n => n == 3

/-- A store holding three bare recipe rows with ids 1, 2, 3. -/
def dbC4 : DB :=
  { emptyDB with
    recipes := [{ rowBase with id := 1 }, { rowBase with id := 2 }, { rowBase with id := 3 }]
    nextRecipeId := 4 }

/-- Filters asking for the second page of size one, sorted by id. -/
def fC4 : Filters :=
  { page := 2, pageSize := 1, sort := "id"
    sortSafelist := ["id", "name", "prep_time", "active_time", "-id", "-name",
      "-prep_time", "-active_time"] }

/-- Filters asking for a page past the end of the result set. -/
def fC4e : Filters :=
  { page := 5, pageSize := 10, sort := "id"
    sortSafelist := ["id", "name", "prep_time", "active_time", "-id", "-name",
      "-prep_time", "-active_time"] }

/-- Two payloads both referencing the ingredient `salt`. -/
def rSalt1 : Recipe :=
  { recipeBase with
    name := "soup"
    ingredients := some
      [{ id := 0, ingredient := "salt", amount := "1", unit := "tsp", optional := false }] }

def rSalt2 : Recipe :=
  { recipeBase with
    name := "bread"
    ingredients := some
      [{ id := 0, ingredient := "salt", amount := "2", unit := "tsp", optional := false }] }

/-- The store after fault-free inserts of the two salt payloads. -/
def dbSalt : DB := execOps emptyDB [.insert noFail rSalt1, .insert noFail rSalt2]

/-- A store holding one bare recipe row whose intervals are NULL. -/
def dbNull : DB := { emptyDB with recipes := [{ rowBase with id := 1 }], nextRecipeId := 2 }

/-- A payload with one instruction step carrying one image. -/
def rStep : Recipe :=
  { recipeBase with
    name := "steps"
    instructions := some
      [{ id := 0, stepNumber := 1, text := "mix", notes := "", imageURLs := ["http://img/step1.png"] }] }

/-- An update payload dropping all instructions of the stored recipe. -/
def rStepless : Recipe := { recipeBase with id := 1, version := 1, name := "stepless" }

/-- The store after inserting the stepped payload and then updating it to the
instruction-free payload. -/
def dbOrphan : DB := execOps emptyDB [.insert noFail rStep, .update noFail rStepless]

/-- A store with one row carrying a concrete prep time and one row with NULL
prep time. -/
def dbC10 : DB :=
  { emptyDB with
    recipes := [{ rowBase with id := 1, prepTime := some 50 }, { rowBase with id := 2 }]
    nextRecipeId := 3 }

/-! ### Effect functions, table invariants and observation maps -/

/-- The rows `insertIngredientsLoop` appends: new reference rows, the junction
rows, and the next ingredient sequence value. -/
def ingEffect (rid : Int) : List IngredientEntry → List IngredientRow → Int →
    List IngredientRow × List RecipeIngredientRow × Int
  | [], _, nid => ([], [], nid)
  | e :: rest, tbl, nid =>
    match tbl.find? (fun i => i.name == e.ingredient) with
    | some row =>
      let p := ingEffect rid rest tbl nid
      (p.1, { recipeId := rid, ingredientId := row.id, quantity := e.amount,
              unit := e.unit, optional := e.optional } :: p.2.1, p.2.2)
    | none =>
      let p := ingEffect rid rest (tbl ++ [{ id := nid, name := e.ingredient }]) (nid + 1)
      ({ id := nid, name := e.ingredient } :: p.1,
       { recipeId := rid, ingredientId := nid, quantity := e.amount,
         unit := e.unit, optional := e.optional } :: p.2.1, p.2.2)

/-- The rows `insertEquipmentLoop` appends. -/
def equipEffect (rid : Int) : List String → List EquipmentRow → Int →
    List EquipmentRow × List RecipeEquipmentRow × Int
  | [], _, eid => ([], [], eid)
  | nm :: rest, tbl, eid =>
    match tbl.find? (fun i => i.name == nm) with
    | some row =>
      let p := equipEffect rid rest tbl eid
      (p.1, { recipeId := rid, equipmentId := row.id } :: p.2.1, p.2.2)
    | none =>
      let p := equipEffect rid rest (tbl ++ [{ id := eid, name := nm }]) (eid + 1)
      ({ id := eid, name := nm } :: p.1,
       { recipeId := rid, equipmentId := eid } :: p.2.1, p.2.2)

/-- The rows `insertStepImagesLoop` appends for one instruction step. -/
def stepImagesRows (rid iid : Int) : Int → List String →
    List ImageRow × List InstructionImageRow
  | _, [] => ([], [])
  | imgId0, url :: rest =>
    let p := stepImagesRows rid iid (imgId0 + 1) rest
    ({ id := imgId0, recipeId := rid, url := url, imageType := .step } :: p.1,
     { instructionId := iid, imageId := imgId0 } :: p.2)

/-- The rows `insertInstructionsLoop` appends: instruction rows, step image
rows, junction rows, and the next instruction/image sequence values. -/
def instrEffect (rid : Int) : Int → Int → List InstructionStep →
    List InstructionRow × List ImageRow × List InstructionImageRow × Int × Int
  | iid0, imgId0, [] => ([], [], [], iid0, imgId0)
  | iid0, imgId0, st :: rest =>
    let q := stepImagesRows rid iid0 imgId0 st.imageURLs
    let p := instrEffect rid (iid0 + 1) (imgId0 + st.imageURLs.length) rest
    ({ id := iid0, recipeId := rid, stepNumber := st.stepNumber, text := st.text,
       notes := st.notes } :: p.1,
     q.1 ++ p.2.1, q.2 ++ p.2.2.1, p.2.2.2)

/-- The recipe row `insertRecipeRow` creates. -/
def insertedRecipeRow (db : DB) (r : Recipe) : RecipeRow :=
  { id := db.nextRecipeId, createdAt := db.now, name := r.name
    description := r.description, instructionsJson := r.instructions
    notes := r.notes, sourceURL := r.sourceURL
    prepTime := durationToInterval r.prepTime
    activeTime := durationToInterval r.activeTime
    servings := nilIfZero r.servings, version := 1 }

/-- The full state produced by a successful `Insert`. -/
def insertEffect (db : DB) (r : Recipe) : DB :=
  let rid := db.nextRecipeId
  let ig := ingEffect rid (r.ingredients.getD []) db.ingredients db.nextIngredientId
  let eq := equipEffect rid (r.requiredEquipment.getD []) db.equipment db.nextEquipmentId
  let ins := instrEffect rid db.nextInstructionId db.nextImageId (r.instructions.getD [])
  let nImg := ins.2.2.2.2
  let mains : List ImageRow :=
    if r.displayURL == "" then []
    else [{ id := nImg, recipeId := rid, url := r.displayURL, imageType := .main }]
  { recipes := db.recipes ++ [insertedRecipeRow db r]
    ingredients := db.ingredients ++ ig.1
    equipment := db.equipment ++ eq.1
    recipeIngredients := db.recipeIngredients ++ ig.2.1
    recipeEquipment := db.recipeEquipment ++ eq.2.1
    recipeInstructions := db.recipeInstructions ++ ins.1
    recipeImages := db.recipeImages ++ ins.2.1 ++ mains
    instructionImages := db.instructionImages ++ ins.2.2.1
    nextRecipeId := rid + 1
    nextIngredientId := ig.2.2
    nextEquipmentId := eq.2.2
    nextInstructionId := ins.2.2.2.1
    nextImageId := if r.displayURL == "" then nImg else nImg + 1
    now := db.now }

/-- The full state produced by a successful `Update` (version match, child
rows deleted and rebuilt; the old `step` image rows of the recipe stay in
`recipe_images`, only their junction rows cascade away). -/
def updateEffect (db : DB) (r : Recipe) : DB :=
  let rid := r.id
  let recipes' := db.recipes.map (fun row =>
    if row.id == r.id && row.version == r.version then
      { row with
        name := r.name, description := r.description, notes := r.notes,
        sourceURL := r.sourceURL, prepTime := durationToInterval r.prepTime,
        activeTime := durationToInterval r.activeTime,
        servings := nilIfZero r.servings, version := row.version + 1 }
    else row)
  let removed := db.recipeInstructions.filter (fun x => x.recipeId == rid)
  let ri₀ := db.recipeIngredients.filter (fun x => !(x.recipeId == rid))
  let re₀ := db.recipeEquipment.filter (fun x => !(x.recipeId == rid))
  let instr₀ := db.recipeInstructions.filter (fun x => !(x.recipeId == rid))
  let links₀ := db.instructionImages.filter
    (fun l => !(removed.any (fun x => x.id == l.instructionId)))
  let imgs₀ := db.recipeImages.filter
    (fun im => !(im.recipeId == rid && im.imageType.isMain))
  let ig := ingEffect rid (r.ingredients.getD []) db.ingredients db.nextIngredientId
  let eq := equipEffect rid (r.requiredEquipment.getD []) db.equipment db.nextEquipmentId
  let ins := instrEffect rid db.nextInstructionId db.nextImageId (r.instructions.getD [])
  let nImg := ins.2.2.2.2
  let mains : List ImageRow :=
    if r.displayURL == "" then []
    else [{ id := nImg, recipeId := rid, url := r.displayURL, imageType := .main }]
  { recipes := recipes'
    ingredients := db.ingredients ++ ig.1
    equipment := db.equipment ++ eq.1
    recipeIngredients := ri₀ ++ ig.2.1
    recipeEquipment := re₀ ++ eq.2.1
    recipeInstructions := instr₀ ++ ins.1
    recipeImages := imgs₀ ++ ins.2.1 ++ mains
    instructionImages := links₀ ++ ins.2.2.1
    nextRecipeId := db.nextRecipeId
    nextIngredientId := ig.2.2
    nextEquipmentId := eq.2.2
    nextInstructionId := ins.2.2.2.1
    nextImageId := if r.displayURL == "" then nImg else nImg + 1
    now := db.now }

/-- The state a successful `Delete` produces: the recipe row and all its
cascading children removed. -/
def deleteEffect (db : DB) (id : Int) : DB :=
  let removedInstr := db.recipeInstructions.filter (fun x => x.recipeId == id)
  let removedImgs := db.recipeImages.filter (fun im => im.recipeId == id)
  { db with
    recipes := db.recipes.filter (fun row => !(row.id == id)),
    recipeIngredients := db.recipeIngredients.filter (fun x => !(x.recipeId == id)),
    recipeEquipment := db.recipeEquipment.filter (fun x => !(x.recipeId == id)),
    recipeInstructions := db.recipeInstructions.filter (fun x => !(x.recipeId == id)),
    recipeImages := db.recipeImages.filter (fun im => !(im.recipeId == id)),
    instructionImages := db.instructionImages.filter (fun l =>
      !(removedInstr.any (fun x => x.id == l.instructionId)) &&
      !(removedImgs.any (fun im => im.id == l.imageId))) }

/-- Well-formedness of a deduplicated ingredient reference table: unique
names, unique ids, ids below the sequence value. -/
def IngTableInv (tbl : List IngredientRow) (nid : Int) : Prop :=
  (tbl.map IngredientRow.name).Nodup ∧ (tbl.map IngredientRow.id).Nodup ∧
    ∀ i ∈ tbl, i.id < nid

/-- Well-formedness of the equipment reference table. -/
def EqTableInv (tbl : List EquipmentRow) (eid : Int) : Prop :=
  (tbl.map EquipmentRow.name).Nodup ∧ (tbl.map EquipmentRow.id).Nodup ∧
    ∀ i ∈ tbl, i.id < eid

/-- The invariant of the relational store maintained by every operation:
unique primary keys, foreign keys below their sequence counters, unique
reference names, and at most one `main` image per recipe. -/
structure Inv (db : DB) : Prop where
  recipeSeqPos : 1 ≤ db.nextRecipeId
  recipeIds : (db.recipes.map RecipeRow.id).Nodup
  recipeIdBound : ∀ row ∈ db.recipes, row.id < db.nextRecipeId
  ing : IngTableInv db.ingredients db.nextIngredientId
  eqp : EqTableInv db.equipment db.nextEquipmentId
  riBound : ∀ x ∈ db.recipeIngredients, x.recipeId < db.nextRecipeId
  reBound : ∀ x ∈ db.recipeEquipment, x.recipeId < db.nextRecipeId
  instrRidBound : ∀ x ∈ db.recipeInstructions, x.recipeId < db.nextRecipeId
  instrIdBound : ∀ x ∈ db.recipeInstructions, x.id < db.nextInstructionId
  imgRidBound : ∀ im ∈ db.recipeImages, im.recipeId < db.nextRecipeId
  imgIds : (db.recipeImages.map ImageRow.id).Nodup
  imgIdBound : ∀ im ∈ db.recipeImages, im.id < db.nextImageId
  linkInstrBound : ∀ l ∈ db.instructionImages, l.instructionId < db.nextInstructionId
  linkImgBound : ∀ l ∈ db.instructionImages, l.imageId < db.nextImageId
  linkImgIds : (db.instructionImages.map InstructionImageRow.imageId).Nodup
  mains : ((db.recipeImages.filter (fun im => im.imageType.isMain)).map
    ImageRow.recipeId).Nodup

/-- The observable data of an ingredient entry (everything except the
store-assigned reference id). -/
def entryData (e : IngredientEntry) : String × String × String × Bool :=
  (e.ingredient, e.amount, e.unit, e.optional)

/-- The observable data of an instruction step (everything except the
store-assigned row id). -/
def stepData (s : InstructionStep) : Int × String × String × List String :=
  (s.stepNumber, s.text, s.notes, s.imageURLs)

/-- Ingredient entries ordered by ingredient name (`ORDER BY i.name`). -/
def entryNameLe (a b : IngredientEntry) : Bool :=
  strLe a.ingredient b.ingredient

/-- Instruction steps ordered by step number (`ORDER BY step_number`). -/
def stepNumberLe (a b : InstructionStep) : Bool :=
  decide (a.stepNumber ≤ b.stepNumber)

/-! ### Generic lemmas about the ORDER BY model -/

theorem insertSorted_length (le : α → α → Bool) (x : α) (l : List α) :
    (insertSorted le x l).length = l.length + 1 := by
  induction l with
  | nil => rfl
  | cons y ys ih =>
    unfold insertSorted
    split <;> simp [ih]

theorem insSort_length (le : α → α → Bool) (l : List α) :
    (insSort le l).length = l.length := by
  induction l with
  | nil => rfl
  | cons x xs ih => simp [insSort, insertSorted_length, ih]

theorem insertSorted_perm (le : α → α → Bool) (x : α) (l : List α) :
    (insertSorted le x l).Perm (x :: l) := by
  induction l with
  | nil => exact List.Perm.refl _
  | cons y ys ih =>
    unfold insertSorted
    split
    · exact List.Perm.refl _
    · exact (ih.cons y).trans (List.Perm.swap x y ys)

theorem insSort_perm (le : α → α → Bool) (l : List α) :
    (insSort le l).Perm l := by
  induction l with
  | nil => exact List.Perm.refl _
  | cons x xs ih =>
    exact (insertSorted_perm le x (insSort le xs)).trans (ih.cons x)

theorem mem_insSort (le : α → α → Bool) (l : List α) (a : α) :
    a ∈ insSort le l ↔ a ∈ l :=
  (insSort_perm le l).mem_iff

theorem map_insertSorted (f : α → β) (le : α → α → Bool) (le' : β → β → Bool)
    (h : ∀ a b, le a b = le' (f a) (f b)) (x : α) (l : List α) :
    (insertSorted le x l).map f = insertSorted le' (f x) (l.map f) := by
  induction l with
  | nil => rfl
  | cons y ys ih =>
    unfold insertSorted
    rw [h]
    split <;> simp_all

theorem map_insSort (f : α → β) (le : α → α → Bool) (le' : β → β → Bool)
    (h : ∀ a b, le a b = le' (f a) (f b)) (l : List α) :
    (insSort le l).map f = insSort le' (l.map f) := by
  induction l with
  | nil => rfl
  | cons x xs ih =>
    simp only [insSort, List.map_cons]
    rw [map_insertSorted f le le' h, ih]

theorem forall₂_insertSorted (R : α → β → Prop) (le₁ : α → α → Bool) (le₂ : β → β → Bool)
    (hle : ∀ a b a' b', R a b → R a' b' → le₁ a a' = le₂ b b') {x : α} {y : β}
    {l₁ : List α} {l₂ : List β} (hxy : R x y) (hl : List.Forall₂ R l₁ l₂) :
    List.Forall₂ R (insertSorted le₁ x l₁) (insertSorted le₂ y l₂) := by
  induction hl with
  | nil => exact List.Forall₂.cons hxy List.Forall₂.nil
  | cons hab hrest ih =>
    unfold insertSorted
    rw [hle _ _ _ _ hxy hab]
    split
    · exact List.Forall₂.cons hxy (List.Forall₂.cons hab hrest)
    · exact List.Forall₂.cons hab ih

theorem forall₂_insSort (R : α → β → Prop) (le₁ : α → α → Bool) (le₂ : β → β → Bool)
    (hle : ∀ a b a' b', R a b → R a' b' → le₁ a a' = le₂ b b')
    {l₁ : List α} {l₂ : List β} (hl : List.Forall₂ R l₁ l₂) :
    List.Forall₂ R (insSort le₁ l₁) (insSort le₂ l₂) := by
  induction hl with
  | nil => exact List.Forall₂.nil
  | cons hab hrest ih =>
    exact forall₂_insertSorted R le₁ le₂ hle hab ih

theorem insertSorted_of_forall_le (le : α → α → Bool) (x : α) (l : List α)
    (h : ∀ y ∈ l, le x y = true) : insertSorted le x l = x :: l := by
  cases l with
  | nil => rfl
  | cons y ys => simp [insertSorted, h y (by simp)]

theorem insSort_of_pairwise (le : α → α → Bool) (l : List α)
    (h : l.Pairwise (fun a b => le a b = true)) : insSort le l = l := by
  induction l with
  | nil => rfl
  | cons x xs ih =>
    rcases List.pairwise_cons.mp h with ⟨hx, hxs⟩
    simp only [insSort, ih hxs]
    exact insertSorted_of_forall_le le x xs hx

theorem find?_append_of_none (p : α → Bool) (l l' : List α) (h : l.find? p = none) :
    (l ++ l').find? p = l'.find? p := by
  induction l with
  | nil => rfl
  | cons x xs ih =>
    rw [List.find?_cons] at h
    rw [List.cons_append, List.find?_cons]
    split at h
    · exact absurd h (by simp)
    · exact ih h

theorem find?_eq_none_iff (p : α → Bool) (l : List α) :
    l.find? p = none ↔ ∀ x ∈ l, ¬ p x := List.find?_eq_none

theorem find?_key_unique {κ : Type _} [BEq κ] [LawfulBEq κ] (f : α → κ)
    {l : List α} {x : α} (hnd : (l.map f).Nodup) (hx : x ∈ l) :
    l.find? (fun y => f y == f x) = some x := by
  induction l with
  | nil => cases hx
  | cons y ys ih =>
    rw [List.map_cons, List.nodup_cons] at hnd
    rw [List.find?_cons]
    rcases List.mem_cons.mp hx with rfl | hx'
    · simp
    · have hne : (f y == f x) = false := by
        rcases h : f y == f x with _ | _
        · rfl
        · exact absurd (eq_of_beq h ▸ List.mem_map_of_mem f hx') hnd.1
      rw [hne]
      exact ih hnd.2 hx'

theorem nodup_append_singleton {l : List α} {a : α} (hnd : l.Nodup) (ha : a ∉ l) :
    (l ++ [a]).Nodup := by
  simp [List.nodup_append, hnd, ha]

/-! ### Deterministic characterization of the write loops

A transaction body that returns `ok` has taken a deterministic path, so its
final state is a function of its input state.  The `...Effect` functions
below compute the appended rows, and the `..._ok` lemmas prove that an `ok`
run of the corresponding loop produced exactly them. -/

theorem except_bind_ok {ε α β : Type _} {m : Except ε α} {f : α → Except ε β} {b : β}
    (h : m >>= f = .ok b) : ∃ a, m = .ok a ∧ f a = .ok b := by
  cases m with
  | error e => exact absurd h (by simp [Bind.bind, Except.bind])
  | ok a => exact ⟨a, rfl, by simpa [Bind.bind, Except.bind] using h⟩

theorem runStmt_ok {α : Type _} {fail : Nat → Bool} {f : DB → Except Err (α × DB)}
    {s : St} {a : α} {s' : St} (h : runStmt fail f s = .ok (a, s')) :
    fail s.stmts = false ∧ f s.db = .ok (a, s'.db) ∧ s'.stmts = s.stmts + 1 := by
  unfold runStmt at h
  split at h
  · exact absurd h (by simp)
  · next hf =>
    refine ⟨by simpa using hf, ?_, ?_⟩ <;>
      cases hfs : f s.db with
      | error e => rw [hfs] at h; exact absurd h (by simp)
      | ok p =>
        rw [hfs] at h
        obtain ⟨rfl, rfl⟩ : a = p.1 ∧ s' = { db := p.2, stmts := s.stmts + 1 } := by
          simpa using h.symm
        simp

theorem runStmt_noFail_ok {α : Type _} {f : DB → Except Err (α × DB)} {s : St}
    {a : α} {d : DB} (h : f s.db = .ok (a, d)) :
    runStmt noFail f s = .ok (a, { db := d, stmts := s.stmts + 1 }) := by
  simp [runStmt, noFail, h]


theorem insertIngredientsLoop_ok {fail : Nat → Bool} {rid : Int}
    {entries : List IngredientEntry} {s s' : St}
    (h : insertIngredientsLoop fail rid entries s = .ok s') :
    s'.db = { s.db with
      ingredients := s.db.ingredients ++
        (ingEffect rid entries s.db.ingredients s.db.nextIngredientId).1
      recipeIngredients := s.db.recipeIngredients ++
        (ingEffect rid entries s.db.ingredients s.db.nextIngredientId).2.1
      nextIngredientId :=
        (ingEffect rid entries s.db.ingredients s.db.nextIngredientId).2.2 } := by
  induction entries generalizing s with
  | nil =>
    simp only [insertIngredientsLoop] at h
    cases h
    simp [ingEffect]
  | cons e rest ih =>
    simp only [insertIngredientsLoop] at h
    obtain ⟨⟨iid, s₁⟩, h₁, h₂⟩ := except_bind_ok h
    obtain ⟨⟨u, s₂⟩, h₃, h₄⟩ := except_bind_ok h₂
    obtain ⟨-, hups, -⟩ := runStmt_ok h₁
    obtain ⟨-, hins, -⟩ := runStmt_ok h₃
    have hfin := ih h₄
    unfold insertRecipeIngredient at hins
    split at hins
    · exact absurd hins (by simp)
    · simp only [Except.ok.injEq, Prod.mk.injEq] at hins
      unfold upsertIngredient at hups
      unfold ingEffect
      cases hfound : s.db.ingredients.find? (fun i => i.name == e.ingredient) with
      | some row =>
        rw [hfound] at hups
        simp only [Except.ok.injEq, Prod.mk.injEq] at hups
        obtain ⟨hiid, hdb₁⟩ := hups
        rw [hfin, ← hins.2, ← hdb₁, ← hiid]
        simp [List.append_assoc]
      | none =>
        rw [hfound] at hups
        simp only [Except.ok.injEq, Prod.mk.injEq] at hups
        obtain ⟨hiid, hdb₁⟩ := hups
        rw [hfin, ← hins.2, ← hdb₁, ← hiid]
        simp [List.append_assoc]

theorem insertEquipmentLoop_ok {fail : Nat → Bool} {rid : Int}
    {names : List String} {s s' : St}
    (h : insertEquipmentLoop fail rid names s = .ok s') :
    s'.db = { s.db with
      equipment := s.db.equipment ++
        (equipEffect rid names s.db.equipment s.db.nextEquipmentId).1
      recipeEquipment := s.db.recipeEquipment ++
        (equipEffect rid names s.db.equipment s.db.nextEquipmentId).2.1
      nextEquipmentId :=
        (equipEffect rid names s.db.equipment s.db.nextEquipmentId).2.2 } := by
  induction names generalizing s with
  | nil =>
    simp only [insertEquipmentLoop] at h
    cases h
    simp [equipEffect]
  | cons nm rest ih =>
    simp only [insertEquipmentLoop] at h
    obtain ⟨⟨eid, s₁⟩, h₁, h₂⟩ := except_bind_ok h
    obtain ⟨⟨u, s₂⟩, h₃, h₄⟩ := except_bind_ok h₂
    obtain ⟨-, hups, -⟩ := runStmt_ok h₁
    obtain ⟨-, hins, -⟩ := runStmt_ok h₃
    have hfin := ih h₄
    unfold insertRecipeEquipment at hins
    split at hins
    · exact absurd hins (by simp)
    · simp only [Except.ok.injEq, Prod.mk.injEq] at hins
      unfold upsertEquipment at hups
      unfold equipEffect
      cases hfound : s.db.equipment.find? (fun i => i.name == nm) with
      | some row =>
        rw [hfound] at hups
        simp only [Except.ok.injEq, Prod.mk.injEq] at hups
        obtain ⟨hiid, hdb₁⟩ := hups
        rw [hfin, ← hins.2, ← hdb₁, ← hiid]
        simp [List.append_assoc]
      | none =>
        rw [hfound] at hups
        simp only [Except.ok.injEq, Prod.mk.injEq] at hups
        obtain ⟨hiid, hdb₁⟩ := hups
        rw [hfin, ← hins.2, ← hdb₁, ← hiid]
        simp [List.append_assoc]

theorem insertStepImagesLoop_ok {fail : Nat → Bool} {rid iid : Int}
    {urls : List String} {s s' : St}
    (h : insertStepImagesLoop fail rid iid urls s = .ok s') :
    s'.db = { s.db with
      recipeImages := s.db.recipeImages ++
        (stepImagesRows rid iid s.db.nextImageId urls).1
      instructionImages := s.db.instructionImages ++
        (stepImagesRows rid iid s.db.nextImageId urls).2
      nextImageId := s.db.nextImageId + urls.length } := by
  induction urls generalizing s with
  | nil =>
    simp only [insertStepImagesLoop] at h
    cases h
    simp [stepImagesRows]
  | cons url rest ih =>
    simp only [insertStepImagesLoop] at h
    obtain ⟨⟨imgId, s₁⟩, h₁, h₂⟩ := except_bind_ok h
    obtain ⟨⟨u, s₂⟩, h₃, h₄⟩ := except_bind_ok h₂
    obtain ⟨-, hins, -⟩ := runStmt_ok h₁
    obtain ⟨-, hlink, -⟩ := runStmt_ok h₃
    have hfin := ih h₄
    unfold insertImageRow at hins
    simp only [Except.ok.injEq, Prod.mk.injEq] at hins
    unfold insertInstructionImageRow at hlink
    split at hlink
    · exact absurd hlink (by simp)
    · simp only [Except.ok.injEq, Prod.mk.injEq] at hlink
      unfold stepImagesRows
      rw [hfin, ← hlink.2, ← hins.2, ← hins.1]
      simp [List.append_assoc]
      omega

theorem insertInstructionsLoop_ok {fail : Nat → Bool} {rid : Int}
    {steps : List InstructionStep} {s s' : St}
    (h : insertInstructionsLoop fail rid steps s = .ok s') :
    s'.db = { s.db with
      recipeInstructions := s.db.recipeInstructions ++
        (instrEffect rid s.db.nextInstructionId s.db.nextImageId steps).1
      recipeImages := s.db.recipeImages ++
        (instrEffect rid s.db.nextInstructionId s.db.nextImageId steps).2.1
      instructionImages := s.db.instructionImages ++
        (instrEffect rid s.db.nextInstructionId s.db.nextImageId steps).2.2.1
      nextInstructionId :=
        (instrEffect rid s.db.nextInstructionId s.db.nextImageId steps).2.2.2.1
      nextImageId :=
        (instrEffect rid s.db.nextInstructionId s.db.nextImageId steps).2.2.2.2 } := by
  induction steps generalizing s with
  | nil =>
    simp only [insertInstructionsLoop] at h
    cases h
    simp [instrEffect]
  | cons st rest ih =>
    simp only [insertInstructionsLoop] at h
    obtain ⟨⟨iid, s₁⟩, h₁, h₂⟩ := except_bind_ok h
    obtain ⟨s₂, h₃, h₄⟩ := except_bind_ok h₂
    obtain ⟨-, hins, -⟩ := runStmt_ok h₁
    have himg := insertStepImagesLoop_ok h₃
    have hfin := ih h₄
    unfold insertInstructionRow at hins
    simp only [Except.ok.injEq, Prod.mk.injEq] at hins
    unfold instrEffect
    rw [hfin, himg, ← hins.2, ← hins.1]
    simp [List.append_assoc]

theorem insertDisplayImage_ok {fail : Nat → Bool} {rid : Int} {url : String}
    {s s' : St} (h : insertDisplayImage fail rid url s = .ok s') :
    s'.db = { s.db with
      recipeImages := s.db.recipeImages ++
        (if url == "" then []
         else [{ id := s.db.nextImageId, recipeId := rid, url := url,
                 imageType := .main }])
      nextImageId :=
        if url == "" then s.db.nextImageId else s.db.nextImageId + 1 } := by
  unfold insertDisplayImage at h
  split at h
  · cases h; simp_all
  · obtain ⟨⟨u, s₁⟩, h₁, h₂⟩ := except_bind_ok h
    obtain ⟨-, hins, -⟩ := runStmt_ok h₁
    cases h₂
    unfold insertImageRow at hins
    simp only [Except.ok.injEq, Prod.mk.injEq] at hins
    rw [← hins.2]
    simp_all

theorem insertChildren_ok {fail : Nat → Bool} {rid : Int} {r : Recipe} {s s' : St}
    (h : insertChildren fail rid r s = .ok s') :
    s'.db = { s.db with
      ingredients := s.db.ingredients ++
        (ingEffect rid (r.ingredients.getD []) s.db.ingredients s.db.nextIngredientId).1
      equipment := s.db.equipment ++
        (equipEffect rid (r.requiredEquipment.getD []) s.db.equipment s.db.nextEquipmentId).1
      recipeIngredients := s.db.recipeIngredients ++
        (ingEffect rid (r.ingredients.getD []) s.db.ingredients s.db.nextIngredientId).2.1
      recipeEquipment := s.db.recipeEquipment ++
        (equipEffect rid (r.requiredEquipment.getD []) s.db.equipment s.db.nextEquipmentId).2.1
      recipeInstructions := s.db.recipeInstructions ++
        (instrEffect rid s.db.nextInstructionId s.db.nextImageId (r.instructions.getD [])).1
      recipeImages := s.db.recipeImages ++
        (instrEffect rid s.db.nextInstructionId s.db.nextImageId (r.instructions.getD [])).2.1 ++
        (if r.displayURL == "" then []
         else [{ id := (instrEffect rid s.db.nextInstructionId s.db.nextImageId
                         (r.instructions.getD [])).2.2.2.2,
                 recipeId := rid, url := r.displayURL, imageType := .main }])
      instructionImages := s.db.instructionImages ++
        (instrEffect rid s.db.nextInstructionId s.db.nextImageId (r.instructions.getD [])).2.2.1
      nextIngredientId :=
        (ingEffect rid (r.ingredients.getD []) s.db.ingredients s.db.nextIngredientId).2.2
      nextEquipmentId :=
        (equipEffect rid (r.requiredEquipment.getD []) s.db.equipment s.db.nextEquipmentId).2.2
      nextInstructionId :=
        (instrEffect rid s.db.nextInstructionId s.db.nextImageId (r.instructions.getD [])).2.2.2.1
      nextImageId :=
        (if r.displayURL == "" then
          (instrEffect rid s.db.nextInstructionId s.db.nextImageId (r.instructions.getD [])).2.2.2.2
         else
          (instrEffect rid s.db.nextInstructionId s.db.nextImageId (r.instructions.getD [])).2.2.2.2
            + 1) } := by
  unfold insertChildren at h
  obtain ⟨s₁, h₁, h₂⟩ := except_bind_ok h
  obtain ⟨s₂, h₃, h₄⟩ := except_bind_ok h₂
  obtain ⟨s₃, h₅, h₆⟩ := except_bind_ok h₄
  have e₁ := insertIngredientsLoop_ok h₁
  have e₂ := insertEquipmentLoop_ok h₃
  have e₃ := insertInstructionsLoop_ok h₅
  have e₄ := insertDisplayImage_ok h₆
  rw [e₄, e₃, e₂, e₁]

theorem Insert_ok {fail : Nat → Bool} {db : DB} {r : Recipe}
    {rid : Int} {ca : Nat} {v : Int} {db' : DB}
    (h : RecipeModel.Insert fail db r = (.ok (rid, ca, v), db')) :
    rid = db.nextRecipeId ∧ ca = db.now ∧ v = 1 ∧ db' = insertEffect db r := by
  unfold RecipeModel.Insert at h
  cases hbody : insertBody fail db r with
  | error e => rw [hbody] at h; exact absurd h (by simp)
  | ok p =>
    rw [hbody] at h
    split at h
    · exact absurd h (by simp)
    · rename_i assigned₀ s₀' heq
      rw [heq] at hbody
      split at h
      · exact absurd h (by simp)
      · simp only [Prod.mk.injEq, Except.ok.injEq] at h
        obtain ⟨hassigned, hdb'⟩ := h
        unfold insertBody at hbody
        obtain ⟨⟨assigned, s₀⟩, h₁, h₂⟩ := except_bind_ok hbody
        obtain ⟨s₁, h₃, h₄⟩ := except_bind_ok h₂
        obtain ⟨-, hrow, -⟩ := runStmt_ok h₁
        simp only [Except.ok.injEq, Prod.mk.injEq] at h₄
        obtain ⟨hassigned', hs⟩ := h₄
        unfold insertRecipeRow at hrow
        dsimp only at hrow
        split at hrow
        · injection hrow with hrow'
          injection hrow' with ha hd
          have echild := insertChildren_ok h₃
          subst hs hassigned' hassigned
          injection ha with ha1 ha23
          injection ha23 with ha2 ha3
          subst ha1 ha2 ha3
          refine ⟨rfl, rfl, rfl, ?_⟩
          rw [← hdb', echild, ← hd]
          rfl
        · exact absurd hrow (by simp)


theorem Update_ok {fail : Nat → Bool} {db : DB} {r : Recipe} {v : Int} {db' : DB}
    (h : RecipeModel.Update fail db r = (.ok v, db')) :
    v = r.version + 1 ∧
    db.recipes.any (fun row => row.id == r.id && row.version == r.version) = true ∧
    db' = updateEffect db r := by
  unfold RecipeModel.Update at h
  cases hbody : updateBody fail db r with
  | error e => rw [hbody] at h; exact absurd h (by simp)
  | ok p =>
    rw [hbody] at h
    split at h
    · exact absurd h (by simp)
    · rename_i v₀' s₀' heq
      rw [heq] at hbody
      split at h
      · exact absurd h (by simp)
      · simp only [Prod.mk.injEq, Except.ok.injEq] at h
        obtain ⟨hv, hdb'⟩ := h
        unfold updateBody at hbody
        obtain ⟨⟨v₀, s₀⟩, h₁, h₂⟩ := except_bind_ok hbody
        obtain ⟨⟨u₁, s₁⟩, h₃, h₄⟩ := except_bind_ok h₂
        obtain ⟨⟨u₂, s₂⟩, h₅, h₆⟩ := except_bind_ok h₄
        obtain ⟨⟨u₃, s₃⟩, h₇, h₈⟩ := except_bind_ok h₆
        obtain ⟨⟨u₄, s₄⟩, h₉, h₁₀⟩ := except_bind_ok h₈
        obtain ⟨s₅, h₁₁, h₁₂⟩ := except_bind_ok h₁₀
        obtain ⟨-, hupd, -⟩ := runStmt_ok h₁
        obtain ⟨-, hd₁, -⟩ := runStmt_ok h₃
        obtain ⟨-, hd₂, -⟩ := runStmt_ok h₅
        obtain ⟨-, hd₃, -⟩ := runStmt_ok h₇
        obtain ⟨-, hd₄, -⟩ := runStmt_ok h₉
        simp only [Except.ok.injEq, Prod.mk.injEq] at h₁₂
        obtain ⟨hv₀, hs⟩ := h₁₂
        have echild := insertChildren_ok h₁₁
        unfold updateRecipeRow at hupd
        dsimp only at hupd
        split at hupd
        · next hmatch =>
          split at hupd
          · simp only [Except.ok.injEq, Prod.mk.injEq] at hupd
            obtain ⟨hver, hdb₀⟩ := hupd
            unfold deleteRecipeIngredients at hd₁
            unfold deleteRecipeEquipment at hd₂
            unfold deleteRecipeInstructions at hd₃
            unfold deleteMainImage at hd₄
            simp only [Except.ok.injEq, Prod.mk.injEq] at hd₁ hd₂ hd₃ hd₄
            refine ⟨by rw [← hv, ← hv₀, ← hver], hmatch, ?_⟩
            rw [← hdb', ← hs, echild, ← hd₄.2, ← hd₃.2, ← hd₂.2, ← hd₁.2, ← hdb₀]
            rfl
          · exact absurd hupd (by simp)
        · exact absurd hupd (by simp)

/-! ### Invariants of the reference tables and id sequences -/


theorem nodup_map_inj {f : α → β} {l : List α} (h : (l.map f).Nodup)
    {a b : α} (ha : a ∈ l) (hb : b ∈ l) (hfab : f a = f b) : a = b := by
  induction l with
  | nil => cases ha
  | cons x xs ih =>
    rw [List.map_cons, List.nodup_cons] at h
    rcases List.mem_cons.mp ha with rfl | ha' <;>
      rcases List.mem_cons.mp hb with rfl | hb'
    · rfl
    · exact absurd (hfab ▸ List.mem_map_of_mem f hb') h.1
    · exact absurd (hfab.symm ▸ List.mem_map_of_mem f ha') h.1
    · exact ih h.2 ha' hb'

theorem ingEffect_table_inv (rid : Int) :
    ∀ (entries : List IngredientEntry) {tbl : List IngredientRow} {nid : Int},
    IngTableInv tbl nid →
    IngTableInv (tbl ++ (ingEffect rid entries tbl nid).1)
      (ingEffect rid entries tbl nid).2.2 := by
  intro entries
  induction entries with
  | nil => intro tbl nid h; simpa [ingEffect]
  | cons e rest ih =>
    intro tbl nid h
    unfold ingEffect
    cases hfound : tbl.find? (fun i => i.name == e.ingredient) with
    | some row => exact ih h
    | none =>
      have hnot : ∀ i ∈ tbl, i.name ≠ e.ingredient := by
        intro i hi
        have := List.find?_eq_none.mp hfound i hi
        simpa using this
      have h' : IngTableInv (tbl ++ [{ id := nid, name := e.ingredient }]) (nid + 1) := by
        obtain ⟨h1, h2, h3⟩ := h
        refine ⟨?_, ?_, ?_⟩
        · rw [List.map_append]
          refine nodup_append_singleton h1 ?_
          intro hmem
          obtain ⟨i, hi, hname⟩ := List.mem_map.mp (by simpa using hmem)
          exact hnot i hi hname
        · rw [List.map_append]
          refine nodup_append_singleton h2 ?_
          intro hmem
          obtain ⟨i, hi, hid⟩ := List.mem_map.mp (by simpa using hmem)
          exact absurd (hid ▸ h3 i hi) (by simp)
        · intro i hi
          rcases List.mem_append.mp hi with hi' | hi'
          · exact lt_trans (h3 i hi') (by omega)
          · simp at hi'
            simp [hi']
      have := ih h'
      simpa [List.append_assoc] using this

theorem ingEffect_nid_le {rid : Int} :
    ∀ {entries : List IngredientEntry} {tbl : List IngredientRow} {nid : Int},
    nid ≤ (ingEffect rid entries tbl nid).2.2 := by
  intro entries
  induction entries with
  | nil => intro tbl nid; simp [ingEffect]
  | cons e rest ih =>
    intro tbl nid
    unfold ingEffect
    cases hfound : tbl.find? (fun i => i.name == e.ingredient) with
    | some row => exact ih
    | none => exact le_trans (by omega) ih

theorem ingEffect_forall₂ (rid : Int) :
    ∀ (entries : List IngredientEntry) (tbl : List IngredientRow) (nid : Int),
    List.Forall₂ (fun (e : IngredientEntry) (row : RecipeIngredientRow) =>
      row.recipeId = rid ∧ row.quantity = e.amount ∧ row.unit = e.unit ∧
      row.optional = e.optional ∧
      ({ id := row.ingredientId, name := e.ingredient } : IngredientRow) ∈
        tbl ++ (ingEffect rid entries tbl nid).1)
      entries (ingEffect rid entries tbl nid).2.1 := by
  intro entries
  induction entries with
  | nil => intro tbl nid; simp [ingEffect]
  | cons e rest ih =>
    intro tbl nid
    unfold ingEffect
    cases hfound : tbl.find? (fun i => i.name == e.ingredient) with
    | some row =>
      have hname : row.name = e.ingredient := by
        have := List.find?_some hfound
        simpa using this
      have hmem : row ∈ tbl := List.mem_of_find?_eq_some hfound
      refine List.Forall₂.cons ⟨rfl, rfl, rfl, rfl, ?_⟩ (ih _ _)
      have heta : ({ id := row.id, name := e.ingredient } : IngredientRow) = row := by
        cases row
        simp_all
      rw [heta]
      exact List.mem_append_left _ hmem
    | none =>
      refine List.Forall₂.cons ⟨rfl, rfl, rfl, rfl, ?_⟩ ?_
      · exact List.mem_append_right _ (by simp)
      · have hrec := ih (tbl ++ [{ id := nid, name := e.ingredient }]) (nid + 1)
        refine hrec.imp ?_
        intro a b hab
        refine ⟨hab.1, hab.2.1, hab.2.2.1, hab.2.2.2.1, ?_⟩
        have := hab.2.2.2.2
        simpa [List.append_assoc] using this

theorem equipEffect_table_inv (rid : Int) :
    ∀ (names : List String) {tbl : List EquipmentRow} {eid : Int},
    EqTableInv tbl eid →
    EqTableInv (tbl ++ (equipEffect rid names tbl eid).1)
      (equipEffect rid names tbl eid).2.2 := by
  intro names
  induction names with
  | nil => intro tbl eid h; simpa [equipEffect]
  | cons nm rest ih =>
    intro tbl eid h
    unfold equipEffect
    cases hfound : tbl.find? (fun i => i.name == nm) with
    | some row => exact ih h
    | none =>
      have hnot : ∀ i ∈ tbl, i.name ≠ nm := by
        intro i hi
        have := List.find?_eq_none.mp hfound i hi
        simpa using this
      have h' : EqTableInv (tbl ++ [{ id := eid, name := nm }]) (eid + 1) := by
        obtain ⟨h1, h2, h3⟩ := h
        refine ⟨?_, ?_, ?_⟩
        · rw [List.map_append]
          refine nodup_append_singleton h1 ?_
          intro hmem
          obtain ⟨i, hi, hname⟩ := List.mem_map.mp (by simpa using hmem)
          exact hnot i hi hname
        · rw [List.map_append]
          refine nodup_append_singleton h2 ?_
          intro hmem
          obtain ⟨i, hi, hid⟩ := List.mem_map.mp (by simpa using hmem)
          exact absurd (hid ▸ h3 i hi) (by simp)
        · intro i hi
          rcases List.mem_append.mp hi with hi' | hi'
          · exact lt_trans (h3 i hi') (by omega)
          · simp at hi'
            simp [hi']
      have := ih h'
      simpa [List.append_assoc] using this

theorem equipEffect_eid_le {rid : Int} :
    ∀ {names : List String} {tbl : List EquipmentRow} {eid : Int},
    eid ≤ (equipEffect rid names tbl eid).2.2 := by
  intro names
  induction names with
  | nil => intro tbl eid; simp [equipEffect]
  | cons nm rest ih =>
    intro tbl eid
    unfold equipEffect
    cases hfound : tbl.find? (fun i => i.name == nm) with
    | some row => exact ih
    | none => exact le_trans (by omega) ih

theorem equipEffect_forall₂ (rid : Int) :
    ∀ (names : List String) (tbl : List EquipmentRow) (eid : Int),
    List.Forall₂ (fun (nm : String) (row : RecipeEquipmentRow) =>
      row.recipeId = rid ∧
      ({ id := row.equipmentId, name := nm } : EquipmentRow) ∈
        tbl ++ (equipEffect rid names tbl eid).1)
      names (equipEffect rid names tbl eid).2.1 := by
  intro names
  induction names with
  | nil => intro tbl eid; simp [equipEffect]
  | cons nm rest ih =>
    intro tbl eid
    unfold equipEffect
    cases hfound : tbl.find? (fun i => i.name == nm) with
    | some row =>
      have hname : row.name = nm := by
        have := List.find?_some hfound
        simpa using this
      have hmem : row ∈ tbl := List.mem_of_find?_eq_some hfound
      refine List.Forall₂.cons ⟨rfl, ?_⟩ (ih _ _)
      have heta : ({ id := row.id, name := nm } : EquipmentRow) = row := by
        cases row
        simp_all
      rw [heta]
      exact List.mem_append_left _ hmem
    | none =>
      refine List.Forall₂.cons ⟨rfl, List.mem_append_right _ (by simp)⟩ ?_
      have hrec := ih (tbl ++ [{ id := eid, name := nm }]) (eid + 1)
      refine hrec.imp ?_
      intro a b hab
      refine ⟨hab.1, ?_⟩
      have := hab.2
      simpa [List.append_assoc] using this

/-! ### Facts about the step image rows -/

theorem stepImagesRows_urls (rid iid : Int) :
    ∀ (n : Int) (urls : List String),
    (stepImagesRows rid iid n urls).1.map ImageRow.url = urls := by
  intro n urls
  induction urls generalizing n with
  | nil => simp [stepImagesRows]
  | cons url rest ih => simp [stepImagesRows, ih]

theorem stepImagesRows_imgs (rid iid : Int) :
    ∀ (n : Int) (urls : List String),
    ∀ im ∈ (stepImagesRows rid iid n urls).1,
      im.recipeId = rid ∧ im.imageType = .step ∧ n ≤ im.id ∧
        im.id < n + urls.length := by
  intro n urls
  induction urls generalizing n with
  | nil => simp [stepImagesRows]
  | cons url rest ih =>
    intro im hmem
    simp only [stepImagesRows, List.mem_cons] at hmem
    rcases hmem with rfl | hmem
    · simp
    · obtain ⟨ha, hb, hc, hd⟩ := ih (n + 1) im hmem
      refine ⟨ha, hb, by omega, by simpa using by omega⟩

theorem stepImagesRows_imgs_sorted (rid iid : Int) :
    ∀ (n : Int) (urls : List String),
    (stepImagesRows rid iid n urls).1.Pairwise (fun a b => a.id < b.id) := by
  intro n urls
  induction urls generalizing n with
  | nil => simp [stepImagesRows]
  | cons url rest ih =>
    simp only [stepImagesRows, List.pairwise_cons]
    refine ⟨?_, ih (n + 1)⟩
    intro im hmem
    have := (stepImagesRows_imgs rid iid (n + 1) rest im hmem).2.2.1
    simpa using by omega

theorem stepImagesRows_links (rid iid : Int) :
    ∀ (n : Int) (urls : List String),
    ∀ l ∈ (stepImagesRows rid iid n urls).2,
      l.instructionId = iid ∧ n ≤ l.imageId ∧ l.imageId < n + urls.length := by
  intro n urls
  induction urls generalizing n with
  | nil => simp [stepImagesRows]
  | cons url rest ih =>
    intro l hmem
    simp only [stepImagesRows, List.mem_cons] at hmem
    rcases hmem with rfl | hmem
    · simp
    · obtain ⟨ha, hb, hc⟩ := ih (n + 1) l hmem
      refine ⟨ha, by omega, by simpa using by omega⟩

theorem stepImagesRows_links_sorted (rid iid : Int) :
    ∀ (n : Int) (urls : List String),
    (stepImagesRows rid iid n urls).2.Pairwise (fun a b => a.imageId < b.imageId) := by
  intro n urls
  induction urls generalizing n with
  | nil => simp [stepImagesRows]
  | cons url rest ih =>
    simp only [stepImagesRows, List.pairwise_cons]
    refine ⟨?_, ih (n + 1)⟩
    intro l hmem
    have := (stepImagesRows_links rid iid (n + 1) rest l hmem).2.1
    simpa using by omega

/-- Reading back the images of one instruction step: when the junction rows
of the step are exactly one `stepImagesRows` block and the image rows of the
block are present in a store with unique image ids, the step images read back
as the input URL list in order. -/
theorem readStepImages_block (rid iid : Int) :
    ∀ (urls : List String) (n : Int) (db' : DB)
      (pre post : List InstructionImageRow),
    db'.instructionImages = pre ++ (stepImagesRows rid iid n urls).2 ++ post →
    (∀ l ∈ pre, l.instructionId ≠ iid) →
    (∀ l ∈ post, l.instructionId ≠ iid) →
    (db'.recipeImages.map ImageRow.id).Nodup →
    (∀ im ∈ (stepImagesRows rid iid n urls).1, im ∈ db'.recipeImages) →
    readStepImages db' iid = urls := by
  intro urls n db' pre post hlinks hpre hpost hnd hmem
  unfold readStepImages
  dsimp only
  rw [hlinks]
  rw [List.filterMap_append, List.filterMap_append]
  have hprenil : pre.filterMap (fun l =>
      if l.instructionId == iid then
        (db'.recipeImages.find? (fun im => im.id == l.imageId)).map (fun im =>
          (im.id, im.url))
      else none) = [] := by
    rw [List.filterMap_eq_nil_iff]
    intro l hl
    simp [hpre l hl]
  have hpostnil : post.filterMap (fun l =>
      if l.instructionId == iid then
        (db'.recipeImages.find? (fun im => im.id == l.imageId)).map (fun im =>
          (im.id, im.url))
      else none) = [] := by
    rw [List.filterMap_eq_nil_iff]
    intro l hl
    simp [hpost l hl]
  rw [hprenil, hpostnil, List.nil_append, List.append_nil]
  have hmid : ∀ (m : Int),
      (∀ im ∈ (stepImagesRows rid iid m urls).1, im ∈ db'.recipeImages) →
      (stepImagesRows rid iid m urls).2.filterMap (fun l =>
        if l.instructionId == iid then
          (db'.recipeImages.find? (fun im => im.id == l.imageId)).map (fun im =>
            (im.id, im.url))
        else none) =
      (stepImagesRows rid iid m urls).1.map (fun im => (im.id, im.url)) := by
    clear hmem hlinks
    induction urls with
    | nil => intro m hm; simp [stepImagesRows]
    | cons url rest ih =>
      intro m hm
      have hhead : ({ id := m, recipeId := rid, url := url, imageType := .step } :
          ImageRow) ∈ db'.recipeImages := hm _ (by simp [stepImagesRows])
      have hfind : db'.recipeImages.find? (fun im => im.id == m) =
          some { id := m, recipeId := rid, url := url, imageType := .step } :=
        find?_key_unique ImageRow.id hnd hhead
      have hrest := ih (m + 1) (fun im hmem' => hm im (by simp [stepImagesRows, hmem']))
      simp only [stepImagesRows, List.filterMap_cons]
      simp [hfind]
      simpa using hrest
  rw [hmid n hmem]
  have hsorted : ((stepImagesRows rid iid n urls).1.map
      (fun im => (im.id, im.url))).Pairwise
      (fun a b => (decide (a.1 ≤ b.1)) = true) := by
    rw [List.pairwise_map]
    refine (stepImagesRows_imgs_sorted rid iid n urls).imp ?_
    intro a b hab
    simpa using le_of_lt hab
  rw [insSort_of_pairwise _ _ hsorted]
  rw [List.map_map]
  exact stepImagesRows_urls rid iid n urls

theorem forall₂_and {R S : α → β → Prop} {l₁ : List α} {l₂ : List β}
    (hR : List.Forall₂ R l₁ l₂) (hS : List.Forall₂ S l₁ l₂) :
    List.Forall₂ (fun a b => R a b ∧ S a b) l₁ l₂ := by
  induction hR with
  | nil => exact List.Forall₂.nil
  | cons hab hrest ih =>
    cases hS with
    | cons hab' hrest' => exact List.Forall₂.cons ⟨hab, hab'⟩ (ih hrest')

/-! ### Facts about the instruction rows -/

theorem instrEffect_nI (rid : Int) :
    ∀ (steps : List InstructionStep) (iid0 imgId0 : Int),
    (instrEffect rid iid0 imgId0 steps).2.2.2.1 = iid0 + steps.length := by
  intro steps
  induction steps with
  | nil => intro iid0 imgId0; simp [instrEffect]
  | cons st rest ih =>
    intro iid0 imgId0
    simp only [instrEffect]
    rw [ih]
    simp
    omega

theorem instrEffect_nM_ge (rid : Int) :
    ∀ (steps : List InstructionStep) (iid0 imgId0 : Int),
    imgId0 ≤ (instrEffect rid iid0 imgId0 steps).2.2.2.2 := by
  intro steps
  induction steps with
  | nil => intro iid0 imgId0; simp [instrEffect]
  | cons st rest ih =>
    intro iid0 imgId0
    simp only [instrEffect]
    exact le_trans (by omega) (ih (iid0 + 1) (imgId0 + st.imageURLs.length))

theorem instrEffect_I (rid : Int) :
    ∀ (steps : List InstructionStep) (iid0 imgId0 : Int),
    List.Forall₂ (fun (st : InstructionStep) (row : InstructionRow) =>
      row.recipeId = rid ∧ row.stepNumber = st.stepNumber ∧
      row.text = st.text ∧ row.notes = st.notes)
      steps (instrEffect rid iid0 imgId0 steps).1 := by
  intro steps
  induction steps with
  | nil => intro iid0 imgId0; simp [instrEffect]
  | cons st rest ih =>
    intro iid0 imgId0
    exact List.Forall₂.cons ⟨rfl, rfl, rfl, rfl⟩ (ih _ _)

theorem instrEffect_Im (rid : Int) :
    ∀ (steps : List InstructionStep) (iid0 imgId0 : Int),
    ∀ im ∈ (instrEffect rid iid0 imgId0 steps).2.1,
      im.recipeId = rid ∧ im.imageType = .step ∧ imgId0 ≤ im.id ∧
        im.id < (instrEffect rid iid0 imgId0 steps).2.2.2.2 := by
  intro steps
  induction steps with
  | nil => intro iid0 imgId0; simp [instrEffect]
  | cons st rest ih =>
    intro iid0 imgId0 im hmem
    simp only [instrEffect, List.mem_append] at hmem
    rcases hmem with hmem | hmem
    · obtain ⟨ha, hb, hc, hd⟩ := stepImagesRows_imgs rid iid0 imgId0 st.imageURLs im hmem
      refine ⟨ha, hb, hc, ?_⟩
      have := instrEffect_nM_ge rid rest (iid0 + 1) (imgId0 + st.imageURLs.length)
      simp only [instrEffect]
      omega
    · obtain ⟨ha, hb, hc, hd⟩ := ih (iid0 + 1) (imgId0 + st.imageURLs.length) im hmem
      exact ⟨ha, hb, by omega, by simpa [instrEffect] using hd⟩

theorem instrEffect_Im_sorted (rid : Int) :
    ∀ (steps : List InstructionStep) (iid0 imgId0 : Int),
    (instrEffect rid iid0 imgId0 steps).2.1.Pairwise (fun a b => a.id < b.id) := by
  intro steps
  induction steps with
  | nil => intro iid0 imgId0; simp [instrEffect]
  | cons st rest ih =>
    intro iid0 imgId0
    simp only [instrEffect]
    rw [List.pairwise_append]
    refine ⟨stepImagesRows_imgs_sorted rid iid0 imgId0 st.imageURLs, ih _ _, ?_⟩
    intro a ha b hb
    have h₁ := (stepImagesRows_imgs rid iid0 imgId0 st.imageURLs a ha).2.2.2
    have h₂ := (ih (iid0 + 1) (imgId0 + st.imageURLs.length)).sublist (List.Sublist.refl _)
    have h₃ := (instrEffect_Im rid rest (iid0 + 1) (imgId0 + st.imageURLs.length) b hb).2.2.1
    omega

theorem instrEffect_L (rid : Int) :
    ∀ (steps : List InstructionStep) (iid0 imgId0 : Int),
    ∀ l ∈ (instrEffect rid iid0 imgId0 steps).2.2.1,
      iid0 ≤ l.instructionId ∧
      l.instructionId < (instrEffect rid iid0 imgId0 steps).2.2.2.1 ∧
      imgId0 ≤ l.imageId ∧
      l.imageId < (instrEffect rid iid0 imgId0 steps).2.2.2.2 := by
  intro steps
  induction steps with
  | nil => intro iid0 imgId0; simp [instrEffect]
  | cons st rest ih =>
    intro iid0 imgId0 l hmem
    simp only [instrEffect, List.mem_append] at hmem
    have hnI := instrEffect_nI rid rest (iid0 + 1) (imgId0 + st.imageURLs.length)
    have hnM := instrEffect_nM_ge rid rest (iid0 + 1) (imgId0 + st.imageURLs.length)
    rcases hmem with hmem | hmem
    · obtain ⟨ha, hb, hc⟩ := stepImagesRows_links rid iid0 imgId0 st.imageURLs l hmem
      simp only [instrEffect]
      refine ⟨le_of_eq ha.symm, ?_, hb, ?_⟩ <;> omega
    · obtain ⟨ha, hb, hc, hd⟩ := ih (iid0 + 1) (imgId0 + st.imageURLs.length) l hmem
      simp only [instrEffect] at hb hd ⊢
      refine ⟨by omega, hb, by omega, hd⟩

theorem instrEffect_L_sorted (rid : Int) :
    ∀ (steps : List InstructionStep) (iid0 imgId0 : Int),
    (instrEffect rid iid0 imgId0 steps).2.2.1.Pairwise
      (fun a b => a.imageId < b.imageId) := by
  intro steps
  induction steps with
  | nil => intro iid0 imgId0; simp [instrEffect]
  | cons st rest ih =>
    intro iid0 imgId0
    simp only [instrEffect]
    rw [List.pairwise_append]
    refine ⟨stepImagesRows_links_sorted rid iid0 imgId0 st.imageURLs, ih _ _, ?_⟩
    intro a ha b hb
    have h₁ := (stepImagesRows_links rid iid0 imgId0 st.imageURLs a ha).2.2
    have h₃ := (instrEffect_L rid rest (iid0 + 1) (imgId0 + st.imageURLs.length) b hb).2.2.1
    omega

theorem instrEffect_readback (rid : Int) :
    ∀ (steps : List InstructionStep) (iid0 imgId0 : Int) (db' : DB)
      (pre post : List InstructionImageRow),
    db'.instructionImages = pre ++ (instrEffect rid iid0 imgId0 steps).2.2.1 ++ post →
    (∀ l ∈ pre, l.instructionId < iid0) →
    (∀ l ∈ post, (instrEffect rid iid0 imgId0 steps).2.2.2.1 ≤ l.instructionId) →
    (db'.recipeImages.map ImageRow.id).Nodup →
    (∀ im ∈ (instrEffect rid iid0 imgId0 steps).2.1, im ∈ db'.recipeImages) →
    List.Forall₂ (fun (st : InstructionStep) (row : InstructionRow) =>
      readStepImages db' row.id = st.imageURLs)
      steps (instrEffect rid iid0 imgId0 steps).1 := by
  intro steps
  induction steps with
  | nil => intro iid0 imgId0 db' pre post _ _ _ _ _; simp [instrEffect]
  | cons st rest ih =>
    intro iid0 imgId0 db' pre post hlinks hpre hpost hnd hmem
    have hnI := instrEffect_nI rid rest (iid0 + 1) (imgId0 + st.imageURLs.length)
    refine List.Forall₂.cons ?_ ?_
    · refine readStepImages_block rid iid0 st.imageURLs imgId0 db' pre
        ((instrEffect rid (iid0 + 1) (imgId0 + st.imageURLs.length) rest).2.2.1 ++ post)
        ?_ ?_ ?_ hnd ?_
      · simpa [instrEffect, List.append_assoc] using hlinks
      · intro l hl
        exact ne_of_lt (hpre l hl)
      · intro l hl
        rcases List.mem_append.mp hl with hl' | hl'
        · have := (instrEffect_L rid rest (iid0 + 1)
            (imgId0 + st.imageURLs.length) l hl').1
          omega
        · have := hpost l hl'
          simp only [instrEffect] at this
          omega
      · intro im hmem'
        exact hmem im (by simp [instrEffect, hmem'])
    · refine ih (iid0 + 1) (imgId0 + st.imageURLs.length) db'
        (pre ++ (stepImagesRows rid iid0 imgId0 st.imageURLs).2) post ?_ ?_ ?_ hnd ?_
      · simpa [instrEffect, List.append_assoc] using hlinks
      · intro l hl
        rcases List.mem_append.mp hl with hl' | hl'
        · have := hpre l hl'
          omega
        · have := (stepImagesRows_links rid iid0 imgId0 st.imageURLs l hl').1
          omega
      · intro l hl
        have := hpost l hl
        simp only [instrEffect] at this
        exact this
      · intro im hmem'
        exact hmem im (by simp [instrEffect, hmem'])

/-! ### Totality of the fault-free write paths -/

theorem ok_bind {ε α β : Type _} (a : α) (f : α → Except ε β) :
    (Except.ok a : Except ε α) >>= f = f a := rfl

theorem ingTableInv_extend {tbl : List IngredientRow} {nid : Int} {nm : String}
    (h : IngTableInv tbl nid)
    (hfound : tbl.find? (fun i => i.name == nm) = none) :
    IngTableInv (tbl ++ [{ id := nid, name := nm }]) (nid + 1) := by
  have hnot : ∀ i ∈ tbl, i.name ≠ nm := by
    intro i hi
    have := List.find?_eq_none.mp hfound i hi
    simpa using this
  obtain ⟨h1, h2, h3⟩ := h
  refine ⟨?_, ?_, ?_⟩
  · rw [List.map_append]
    refine nodup_append_singleton h1 ?_
    intro hmem
    obtain ⟨i, hi, hname⟩ := List.mem_map.mp (by simpa using hmem)
    exact hnot i hi hname
  · rw [List.map_append]
    refine nodup_append_singleton h2 ?_
    intro hmem
    obtain ⟨i, hi, hid⟩ := List.mem_map.mp (by simpa using hmem)
    exact absurd (hid ▸ h3 i hi) (by simp)
  · intro i hi
    rcases List.mem_append.mp hi with hi' | hi'
    · exact lt_trans (h3 i hi') (by omega)
    · simp at hi'
      simp [hi']

theorem eqTableInv_extend {tbl : List EquipmentRow} {eid : Int} {nm : String}
    (h : EqTableInv tbl eid)
    (hfound : tbl.find? (fun i => i.name == nm) = none) :
    EqTableInv (tbl ++ [{ id := eid, name := nm }]) (eid + 1) := by
  have hnot : ∀ i ∈ tbl, i.name ≠ nm := by
    intro i hi
    have := List.find?_eq_none.mp hfound i hi
    simpa using this
  obtain ⟨h1, h2, h3⟩ := h
  refine ⟨?_, ?_, ?_⟩
  · rw [List.map_append]
    refine nodup_append_singleton h1 ?_
    intro hmem
    obtain ⟨i, hi, hname⟩ := List.mem_map.mp (by simpa using hmem)
    exact hnot i hi hname
  · rw [List.map_append]
    refine nodup_append_singleton h2 ?_
    intro hmem
    obtain ⟨i, hi, hid⟩ := List.mem_map.mp (by simpa using hmem)
    exact absurd (hid ▸ h3 i hi) (by simp)
  · intro i hi
    rcases List.mem_append.mp hi with hi' | hi'
    · exact lt_trans (h3 i hi') (by omega)
    · simp at hi'
      simp [hi']

theorem insertIngredientsLoop_total (rid : Int) :
    ∀ {entries : List IngredientEntry} {s : St},
    IngTableInv s.db.ingredients s.db.nextIngredientId →
    (entries.map IngredientEntry.ingredient).Nodup →
    (∀ x ∈ s.db.recipeIngredients, x.recipeId = rid →
      ∃ nm, ({ id := x.ingredientId, name := nm } : IngredientRow) ∈ s.db.ingredients ∧
        nm ∉ entries.map IngredientEntry.ingredient) →
    ∃ s', insertIngredientsLoop noFail rid entries s = .ok s' := by
  intro entries
  induction entries with
  | nil => intro s _ _ _; exact ⟨s, rfl⟩
  | cons e rest ih =>
    intro s hT hnames hfresh
    have hnames' := hnames
    rw [List.map_cons, List.nodup_cons] at hnames'
    -- the upsert result
    obtain ⟨iid, db₁, hup, hdb₁ing, hdb₁ri, hdb₁T, hiidmem, hsub⟩ :
        ∃ iid db₁, upsertIngredient e.ingredient s.db = .ok (iid, db₁) ∧
          (∃ ext, db₁.ingredients = s.db.ingredients ++ ext) ∧
          db₁.recipeIngredients = s.db.recipeIngredients ∧
          IngTableInv db₁.ingredients db₁.nextIngredientId ∧
          ({ id := iid, name := e.ingredient } : IngredientRow) ∈ db₁.ingredients ∧
          (db₁.recipeEquipment = s.db.recipeEquipment ∧
            db₁.equipment = s.db.equipment ∧
            db₁.nextEquipmentId = s.db.nextEquipmentId ∧
            db₁.instructionImages = s.db.instructionImages ∧
            db₁.nextImageId = s.db.nextImageId ∧
            db₁.nextInstructionId = s.db.nextInstructionId) := by
      unfold upsertIngredient
      cases hfound : s.db.ingredients.find? (fun i => i.name == e.ingredient) with
      | some row =>
        refine ⟨row.id, s.db, rfl, ⟨[], by simp⟩, rfl, hT, ?_, by simp⟩
        have hname : row.name = e.ingredient := by
          have := List.find?_some hfound
          simpa using this
        have heta : ({ id := row.id, name := e.ingredient } : IngredientRow) = row := by
          cases row
          simp_all
        rw [heta]
        exact List.mem_of_find?_eq_some hfound
      | none =>
        refine ⟨s.db.nextIngredientId, _, rfl, ⟨_, rfl⟩, rfl,
          ingTableInv_extend hT hfound, by simp, by simp⟩
    -- the junction insert cannot hit the primary key
    have hno : db₁.recipeIngredients.any
        (fun x => x.recipeId == rid && x.ingredientId == iid) = false := by
      rw [Bool.eq_false_iff]
      intro hany
      obtain ⟨x, hx, hxp⟩ := List.any_eq_true.mp hany
      simp only [Bool.and_eq_true, beq_iff_eq] at hxp
      rw [hdb₁ri] at hx
      obtain ⟨nm, hnmmem, hnmnot⟩ := hfresh x hx hxp.1
      obtain ⟨ext, hext⟩ := hdb₁ing
      have hnmmem' : ({ id := x.ingredientId, name := nm } : IngredientRow) ∈
          db₁.ingredients := by
        rw [hext]; exact List.mem_append_left _ hnmmem
      rw [hxp.2] at hnmmem'
      have := nodup_map_inj hdb₁T.2.1 hnmmem' hiidmem rfl
      have hnm : nm = e.ingredient := by
        have := congrArg IngredientRow.name this
        simpa using this
      exact hnmnot (hnm ▸ List.mem_cons_self _ _)
    have hjunc : insertRecipeIngredient rid iid e.amount e.unit e.optional db₁ =
        .ok ((), { db₁ with recipeIngredients := db₁.recipeIngredients ++
          [{ recipeId := rid, ingredientId := iid, quantity := e.amount,
             unit := e.unit, optional := e.optional }] }) := by
      unfold insertRecipeIngredient
      rw [hno]
      simp
    set db₂ : DB := { db₁ with recipeIngredients := db₁.recipeIngredients ++
      [{ recipeId := rid, ingredientId := iid, quantity := e.amount,
         unit := e.unit, optional := e.optional }] } with hdb₂
    obtain ⟨s', hs'⟩ := ih (s := { db := db₂, stmts := s.stmts + 2 })
      (by simpa [hdb₂] using hdb₁T)
      hnames'.2
      (by
        intro x hx hxr
        simp only [hdb₂, hdb₁ri] at hx
        rcases List.mem_append.mp hx with hx' | hx'
        · obtain ⟨nm, hnmmem, hnmnot⟩ := hfresh x hx' hxr
          obtain ⟨ext, hext⟩ := hdb₁ing
          refine ⟨nm, ?_, ?_⟩
          · simp only [hdb₂]
            rw [hext]
            exact List.mem_append_left _ hnmmem
          · intro hmem
            exact hnmnot (List.mem_cons_of_mem _ hmem)
        · simp at hx'
          refine ⟨e.ingredient, by simpa [hdb₂, hx'] using hiidmem, ?_⟩
          simpa [hx'] using hnames'.1)
    refine ⟨s', ?_⟩
    simp only [insertIngredientsLoop]
    rw [runStmt_noFail_ok hup, ok_bind]
    rw [runStmt_noFail_ok (s := { db := db₁, stmts := s.stmts + 1 }) hjunc, ok_bind]
    exact hs'

theorem insertEquipmentLoop_total (rid : Int) :
    ∀ {names : List String} {s : St},
    EqTableInv s.db.equipment s.db.nextEquipmentId →
    names.Nodup →
    (∀ x ∈ s.db.recipeEquipment, x.recipeId = rid →
      ∃ nm, ({ id := x.equipmentId, name := nm } : EquipmentRow) ∈ s.db.equipment ∧
        nm ∉ names) →
    ∃ s', insertEquipmentLoop noFail rid names s = .ok s' := by
  intro names
  induction names with
  | nil => intro s _ _ _; exact ⟨s, rfl⟩
  | cons nm0 rest ih =>
    intro s hT hnames hfresh
    have hnames' := List.nodup_cons.mp hnames
    obtain ⟨eid, db₁, hup, hdb₁eq, hdb₁re, hdb₁T, heidmem⟩ :
        ∃ eid db₁, upsertEquipment nm0 s.db = .ok (eid, db₁) ∧
          (∃ ext, db₁.equipment = s.db.equipment ++ ext) ∧
          db₁.recipeEquipment = s.db.recipeEquipment ∧
          EqTableInv db₁.equipment db₁.nextEquipmentId ∧
          ({ id := eid, name := nm0 } : EquipmentRow) ∈ db₁.equipment := by
      unfold upsertEquipment
      cases hfound : s.db.equipment.find? (fun i => i.name == nm0) with
      | some row =>
        refine ⟨row.id, s.db, rfl, ⟨[], by simp⟩, rfl, hT, ?_⟩
        have hname : row.name = nm0 := by
          have := List.find?_some hfound
          simpa using this
        have heta : ({ id := row.id, name := nm0 } : EquipmentRow) = row := by
          cases row
          simp_all
        rw [heta]
        exact List.mem_of_find?_eq_some hfound
      | none =>
        exact ⟨s.db.nextEquipmentId, _, rfl, ⟨_, rfl⟩, rfl,
          eqTableInv_extend hT hfound, by simp⟩
    have hno : db₁.recipeEquipment.any
        (fun x => x.recipeId == rid && x.equipmentId == eid) = false := by
      rw [Bool.eq_false_iff]
      intro hany
      obtain ⟨x, hx, hxp⟩ := List.any_eq_true.mp hany
      simp only [Bool.and_eq_true, beq_iff_eq] at hxp
      rw [hdb₁re] at hx
      obtain ⟨nm, hnmmem, hnmnot⟩ := hfresh x hx hxp.1
      obtain ⟨ext, hext⟩ := hdb₁eq
      have hnmmem' : ({ id := x.equipmentId, name := nm } : EquipmentRow) ∈
          db₁.equipment := by
        rw [hext]; exact List.mem_append_left _ hnmmem
      rw [hxp.2] at hnmmem'
      have := nodup_map_inj hdb₁T.2.1 hnmmem' heidmem rfl
      have hnm : nm = nm0 := by
        have := congrArg EquipmentRow.name this
        simpa using this
      exact hnmnot (hnm ▸ List.mem_cons_self _ _)
    have hjunc : insertRecipeEquipment rid eid db₁ =
        .ok ((), { db₁ with recipeEquipment := db₁.recipeEquipment ++
          [{ recipeId := rid, equipmentId := eid }] }) := by
      unfold insertRecipeEquipment
      rw [hno]
      simp
    set db₂ : DB := { db₁ with recipeEquipment := db₁.recipeEquipment ++
      [{ recipeId := rid, equipmentId := eid }] } with hdb₂
    obtain ⟨s', hs'⟩ := ih (s := { db := db₂, stmts := s.stmts + 2 })
      (by simpa [hdb₂] using hdb₁T)
      hnames'.2
      (by
        intro x hx hxr
        simp only [hdb₂, hdb₁re] at hx
        rcases List.mem_append.mp hx with hx' | hx'
        · obtain ⟨nm, hnmmem, hnmnot⟩ := hfresh x hx' hxr
          obtain ⟨ext, hext⟩ := hdb₁eq
          refine ⟨nm, ?_, ?_⟩
          · simp only [hdb₂]
            rw [hext]
            exact List.mem_append_left _ hnmmem
          · intro hmem
            exact hnmnot (List.mem_cons_of_mem _ hmem)
        · simp at hx'
          refine ⟨nm0, by simpa [hdb₂, hx'] using heidmem, ?_⟩
          simpa [hx'] using hnames'.1)
    refine ⟨s', ?_⟩
    simp only [insertEquipmentLoop]
    rw [runStmt_noFail_ok hup, ok_bind]
    rw [runStmt_noFail_ok (s := { db := db₁, stmts := s.stmts + 1 }) hjunc, ok_bind]
    exact hs'

theorem insertStepImagesLoop_total (rid iid : Int) :
    ∀ (urls : List String) {s : St},
    (∀ l ∈ s.db.instructionImages, l.imageId < s.db.nextImageId) →
    ∃ s', insertStepImagesLoop noFail rid iid urls s = .ok s' := by
  intro urls
  induction urls with
  | nil => intro s _; exact ⟨s, rfl⟩
  | cons url rest ih =>
    intro s hbound
    set db₁ : DB := { s.db with
      recipeImages := s.db.recipeImages ++
        [{ id := s.db.nextImageId, recipeId := rid, url := url,
           imageType := .step }],
      nextImageId := s.db.nextImageId + 1 } with hdb₁
    have himg : insertImageRow rid url .step s.db = .ok (s.db.nextImageId, db₁) := rfl
    have hno : db₁.instructionImages.any
        (fun l => l.instructionId == iid && l.imageId == s.db.nextImageId) = false := by
      rw [Bool.eq_false_iff]
      intro hany
      obtain ⟨l, hl, hlp⟩ := List.any_eq_true.mp hany
      simp only [Bool.and_eq_true, beq_iff_eq] at hlp
      have := hbound l (by simpa [hdb₁] using hl)
      omega
    set db₂ : DB := { db₁ with instructionImages := db₁.instructionImages ++
      [{ instructionId := iid, imageId := s.db.nextImageId }] } with hdb₂
    have hjunc : insertInstructionImageRow iid s.db.nextImageId db₁ = .ok ((), db₂) := by
      unfold insertInstructionImageRow
      rw [hno]
      simp [hdb₂]
    obtain ⟨s', hs'⟩ := ih (s := { db := db₂, stmts := s.stmts + 2 })
      (by
        intro l hl
        simp only [hdb₂, hdb₁] at hl ⊢
        rcases List.mem_append.mp hl with hl' | hl'
        · have := hbound l hl'
          omega
        · simp at hl'
          simp [hl'])
    refine ⟨s', ?_⟩
    simp only [insertStepImagesLoop]
    rw [runStmt_noFail_ok himg, ok_bind]
    rw [runStmt_noFail_ok (s := { db := db₁, stmts := s.stmts + 1 }) hjunc, ok_bind]
    exact hs'

theorem insertInstructionsLoop_total (rid : Int) :
    ∀ {steps : List InstructionStep} {s : St},
    (∀ l ∈ s.db.instructionImages, l.imageId < s.db.nextImageId) →
    ∃ s', insertInstructionsLoop noFail rid steps s = .ok s' := by
  intro steps
  induction steps with
  | nil => intro s _; exact ⟨s, rfl⟩
  | cons st rest ih =>
    intro s hbound
    set db₁ : DB := { s.db with
      recipeInstructions := s.db.recipeInstructions ++
        [{ id := s.db.nextInstructionId, recipeId := rid,
           stepNumber := st.stepNumber, text := st.text, notes := st.notes }],
      nextInstructionId := s.db.nextInstructionId + 1 } with hdb₁
    have hins : insertInstructionRow rid st.stepNumber st.text st.notes s.db =
        .ok (s.db.nextInstructionId, db₁) := rfl
    obtain ⟨s₂, hs₂⟩ := insertStepImagesLoop_total
      rid s.db.nextInstructionId st.imageURLs
      (s := { db := db₁, stmts := s.stmts + 1 })
      (by
        intro l hl
        simp only [hdb₁] at hl ⊢
        exact hbound l hl)
    have hchar := insertStepImagesLoop_ok hs₂
    have hLinks : s₂.db.instructionImages = db₁.instructionImages ++
        (stepImagesRows rid s.db.nextInstructionId db₁.nextImageId st.imageURLs).2 := by
      rw [hchar]
    have hNext : s₂.db.nextImageId = db₁.nextImageId + st.imageURLs.length := by
      rw [hchar]
    have hN1 : db₁.nextImageId = s.db.nextImageId := by rw [hdb₁]
    obtain ⟨s', hs'⟩ := ih (s := s₂)
      (by
        intro l hl
        rw [hLinks] at hl
        rw [hNext]
        rcases List.mem_append.mp hl with hl' | hl'
        · have := hbound l (by simpa [hdb₁] using hl')
          omega
        · have := (stepImagesRows_links rid s.db.nextInstructionId
            db₁.nextImageId st.imageURLs l hl').2.2
          omega)
    refine ⟨s', ?_⟩
    simp only [insertInstructionsLoop]
    rw [runStmt_noFail_ok hins, ok_bind]
    rw [hs₂, ok_bind]
    exact hs'

theorem insertDisplayImage_total (rid : Int) (url : String) {s : St} :
    ∃ s', insertDisplayImage noFail rid url s = .ok s' := by
  unfold insertDisplayImage
  split
  · exact ⟨s, rfl⟩
  · set db₁ : DB := { s.db with
      recipeImages := s.db.recipeImages ++
        [{ id := s.db.nextImageId, recipeId := rid, url := url,
           imageType := .main }],
      nextImageId := s.db.nextImageId + 1 } with hdb₁
    refine ⟨{ db := db₁, stmts := s.stmts + 1 }, ?_⟩
    have himg : insertImageRow rid url .main s.db = .ok (s.db.nextImageId, db₁) := rfl
    rw [runStmt_noFail_ok himg, ok_bind]

/-- A fault-free `Insert` of a payload that passes the check constraints and
repeats no ingredient or equipment name succeeds, assigning the next recipe
id, the store clock and version 1, and producing exactly `insertEffect`. -/
theorem Insert_total {db : DB} {r : Recipe}
    (hchecks : rowChecksOk (durationToInterval r.prepTime)
      (durationToInterval r.activeTime) (nilIfZero r.servings) = true)
    (hIng : IngTableInv db.ingredients db.nextIngredientId)
    (hEq : EqTableInv db.equipment db.nextEquipmentId)
    (hnamesI : ((r.ingredients.getD []).map IngredientEntry.ingredient).Nodup)
    (hnamesE : (r.requiredEquipment.getD []).Nodup)
    (hfreshRI : ∀ x ∈ db.recipeIngredients, x.recipeId ≠ db.nextRecipeId)
    (hfreshRE : ∀ x ∈ db.recipeEquipment, x.recipeId ≠ db.nextRecipeId)
    (hlink : ∀ l ∈ db.instructionImages, l.imageId < db.nextImageId) :
    RecipeModel.Insert noFail db r =
      (.ok (db.nextRecipeId, db.now, 1), insertEffect db r) := by
  set dbRow : DB := { db with
    recipes := db.recipes ++ [insertedRecipeRow db r],
    nextRecipeId := db.nextRecipeId + 1 } with hdbRow
  have hrow : insertRecipeRow r db = .ok ((db.nextRecipeId, db.now, 1), dbRow) := by
    unfold insertRecipeRow
    dsimp only
    rw [if_pos hchecks]
    rfl
  obtain ⟨s₁, hs₁⟩ := insertIngredientsLoop_total db.nextRecipeId
    (s := { db := dbRow, stmts := 0 + 1 })
    (by simpa [hdbRow] using hIng)
    hnamesI
    (by
      intro x hx hxr
      exact absurd hxr (hfreshRI x (by simpa [hdbRow] using hx)))
  have hc₁ := insertIngredientsLoop_ok hs₁
  obtain ⟨s₂, hs₂⟩ := insertEquipmentLoop_total db.nextRecipeId (s := s₁)
    (by rw [hc₁]; simpa [hdbRow] using hEq)
    hnamesE
    (by
      intro x hx hxr
      rw [hc₁] at hx
      exact absurd hxr (hfreshRE x (by simpa [hdbRow] using hx)))
  have hc₂ := insertEquipmentLoop_ok hs₂
  obtain ⟨s₃, hs₃⟩ := insertInstructionsLoop_total db.nextRecipeId (s := s₂)
    (by
      rw [hc₂, hc₁]
      simpa [hdbRow] using hlink)
  obtain ⟨s₄, hs₄⟩ := insertDisplayImage_total db.nextRecipeId r.displayURL (s := s₃)
  have hbody : insertBody noFail db r = .ok ((db.nextRecipeId, db.now, 1), s₄) := by
    unfold insertBody
    rw [runStmt_noFail_ok (s := ({ db := db, stmts := 0 } : St)) hrow, ok_bind]
    dsimp only
    unfold insertChildren
    rw [hs₁, ok_bind, hs₂, ok_bind, hs₃, ok_bind, hs₄, ok_bind]
  have hfinal : RecipeModel.Insert noFail db r =
      (.ok (db.nextRecipeId, db.now, 1), s₄.db) := by
    unfold RecipeModel.Insert
    rw [hbody]
    simp [noFail]
  obtain ⟨-, -, -, hstate⟩ := Insert_ok hfinal
  rw [hfinal, hstate]

/-- A fault-free `Update` whose id and version match a stored row, whose
payload passes the check constraints and repeats no ingredient or equipment
name, succeeds with the incremented version and produces exactly
`updateEffect`. -/
theorem Update_total {db : DB} {r : Recipe}
    (hmatch : db.recipes.any
      (fun row => row.id == r.id && row.version == r.version) = true)
    (hchecks : rowChecksOk (durationToInterval r.prepTime)
      (durationToInterval r.activeTime) (nilIfZero r.servings) = true)
    (hIng : IngTableInv db.ingredients db.nextIngredientId)
    (hEq : EqTableInv db.equipment db.nextEquipmentId)
    (hnamesI : ((r.ingredients.getD []).map IngredientEntry.ingredient).Nodup)
    (hnamesE : (r.requiredEquipment.getD []).Nodup)
    (hlink : ∀ l ∈ db.instructionImages, l.imageId < db.nextImageId) :
    RecipeModel.Update noFail db r = (.ok (r.version + 1), updateEffect db r) := by
  set db₀ : DB := { db with
    recipes := db.recipes.map (fun row =>
      if row.id == r.id && row.version == r.version then
        { row with
          name := r.name, description := r.description, notes := r.notes,
          sourceURL := r.sourceURL, prepTime := durationToInterval r.prepTime,
          activeTime := durationToInterval r.activeTime,
          servings := nilIfZero r.servings, version := row.version + 1 }
      else row) } with hdb₀
  have hupd : updateRecipeRow r db = .ok (r.version + 1, db₀) := by
    unfold updateRecipeRow
    dsimp only
    rw [if_pos hmatch, if_pos hchecks]
  set db₁ : DB := { db₀ with recipeIngredients :=
    db₀.recipeIngredients.filter (fun x => !(x.recipeId == r.id)) } with hdb₁
  have hd₁ : deleteRecipeIngredients r.id db₀ = .ok ((), db₁) := rfl
  set db₂ : DB := { db₁ with recipeEquipment :=
    db₁.recipeEquipment.filter (fun x => !(x.recipeId == r.id)) } with hdb₂
  have hd₂ : deleteRecipeEquipment r.id db₁ = .ok ((), db₂) := rfl
  set db₃ : DB := { db₂ with
    recipeInstructions := db₂.recipeInstructions.filter
      (fun x => !(x.recipeId == r.id)),
    instructionImages := db₂.instructionImages.filter
      (fun l => !((db₂.recipeInstructions.filter
        (fun x => x.recipeId == r.id)).any (fun x => x.id == l.instructionId))) }
    with hdb₃
  have hd₃ : deleteRecipeInstructions r.id db₂ = .ok ((), db₃) := rfl
  set db₄ : DB := { db₃ with
    recipeImages := db₃.recipeImages.filter
      (fun im => !(im.recipeId == r.id && im.imageType.isMain)) }
    with hdb₄
  have hd₄ : deleteMainImage r.id db₃ = .ok ((), db₄) := rfl
  obtain ⟨s₁, hs₁⟩ := insertIngredientsLoop_total r.id
    (s := { db := db₄, stmts := 0 + 1 + 1 + 1 + 1 + 1 })
    (by simpa [hdb₄, hdb₃, hdb₂, hdb₁, hdb₀] using hIng)
    hnamesI
    (by
      intro x hx hxr
      simp only [hdb₄, hdb₃, hdb₂, hdb₁] at hx
      have := (List.mem_filter.mp hx).2
      simp [hxr] at this)
  have hc₁ := insertIngredientsLoop_ok hs₁
  obtain ⟨s₂, hs₂⟩ := insertEquipmentLoop_total r.id (s := s₁)
    (by rw [hc₁]; simpa [hdb₄, hdb₃, hdb₂, hdb₁, hdb₀] using hEq)
    hnamesE
    (by
      intro x hx hxr
      rw [hc₁] at hx
      simp only [hdb₄, hdb₃, hdb₂] at hx
      have := (List.mem_filter.mp hx).2
      simp [hxr] at this)
  have hc₂ := insertEquipmentLoop_ok hs₂
  obtain ⟨s₃, hs₃⟩ := insertInstructionsLoop_total r.id (s := s₂)
    (by
      rw [hc₂, hc₁]
      simp only [hdb₄, hdb₃, hdb₂, hdb₁, hdb₀]
      intro l hl
      exact hlink l (List.mem_of_mem_filter hl))
  obtain ⟨s₄, hs₄⟩ := insertDisplayImage_total r.id r.displayURL (s := s₃)
  have hbody : updateBody noFail db r = .ok (r.version + 1, s₄) := by
    unfold updateBody
    rw [runStmt_noFail_ok (s := ({ db := db, stmts := 0 } : St)) hupd, ok_bind]
    dsimp only
    rw [runStmt_noFail_ok (s := ({ db := db₀, stmts := 0 + 1 } : St)) hd₁, ok_bind]
    dsimp only
    rw [runStmt_noFail_ok (s := ({ db := db₁, stmts := 0 + 1 + 1 } : St)) hd₂, ok_bind]
    dsimp only
    rw [runStmt_noFail_ok (s := ({ db := db₂, stmts := 0 + 1 + 1 + 1 } : St)) hd₃,
      ok_bind]
    dsimp only
    rw [runStmt_noFail_ok (s := ({ db := db₃, stmts := 0 + 1 + 1 + 1 + 1 } : St)) hd₄,
      ok_bind]
    dsimp only
    unfold insertChildren
    rw [hs₁, ok_bind, hs₂, ok_bind, hs₃, ok_bind, hs₄, ok_bind]
  have hfinal : RecipeModel.Update noFail db r = (.ok (r.version + 1), s₄.db) := by
    unfold RecipeModel.Update
    rw [hbody]
    simp [noFail]
  obtain ⟨-, -, hstate⟩ := Update_ok hfinal
  rw [hfinal, hstate]

/-! ### Rollback: a failed transaction leaves the store untouched -/

theorem Insert_error {fail : Nat → Bool} {db : DB} {r : Recipe} {e : Err} {db₂ : DB}
    (h : RecipeModel.Insert fail db r = (.error e, db₂)) : db₂ = db := by
  unfold RecipeModel.Insert at h
  split at h
  · simp only [Prod.mk.injEq] at h
    exact h.2.symm
  · split at h
    · simp only [Prod.mk.injEq] at h
      exact h.2.symm
    · simp only [Prod.mk.injEq] at h
      exact absurd h.1 (by simp)

theorem Update_error {fail : Nat → Bool} {db : DB} {r : Recipe} {e : Err} {db₂ : DB}
    (h : RecipeModel.Update fail db r = (.error e, db₂)) : db₂ = db := by
  unfold RecipeModel.Update at h
  split at h
  · simp only [Prod.mk.injEq] at h
    exact h.2.symm
  · split at h
    · simp only [Prod.mk.injEq] at h
      exact h.2.symm
    · simp only [Prod.mk.injEq] at h
      exact absurd h.1 (by simp)

theorem Insert_snd (fail : Nat → Bool) (db : DB) (r : Recipe) :
    (RecipeModel.Insert fail db r).2 = db ∨
    (RecipeModel.Insert fail db r).2 = insertEffect db r := by
  rcases h : RecipeModel.Insert fail db r with ⟨res, db₂⟩
  cases res with
  | error e => exact Or.inl (Insert_error h)
  | ok out =>
    obtain ⟨rid, ca, v⟩ := out
    exact Or.inr (Insert_ok h).2.2.2

theorem Update_snd (fail : Nat → Bool) (db : DB) (r : Recipe) :
    (RecipeModel.Update fail db r).2 = db ∨
    (db.recipes.any (fun row => row.id == r.id && row.version == r.version) = true ∧
      (RecipeModel.Update fail db r).2 = updateEffect db r) := by
  rcases h : RecipeModel.Update fail db r with ⟨res, db₂⟩
  cases res with
  | error e => exact Or.inl (Update_error h)
  | ok v =>
    obtain ⟨hv, hm, hst⟩ := Update_ok h
    exact Or.inr ⟨hm, hst⟩


theorem Delete_snd (db : DB) (id : Int) :
    (RecipeModel.Delete db id).2 = db ∨
    (RecipeModel.Delete db id).2 = deleteEffect db id := by
  unfold RecipeModel.Delete
  split
  · exact Or.inl rfl
  · split
    · exact Or.inr rfl
    · exact Or.inl rfl

/-! ### The global store invariant -/

theorem forall₂_mem_right {R : α → β → Prop} {l₁ : List α} {l₂ : List β}
    (h : List.Forall₂ R l₁ l₂) {b : β} (hb : b ∈ l₂) : ∃ a ∈ l₁, R a b := by
  induction h with
  | nil => cases hb
  | cons hab hrest ih =>
    rcases List.mem_cons.mp hb with rfl | hb'
    · exact ⟨_, List.mem_cons_self _ _, hab⟩
    · obtain ⟨a, ha, hr⟩ := ih hb'
      exact ⟨a, List.mem_cons_of_mem _ ha, hr⟩

theorem nodup_map_append {f : α → β} {l₁ l₂ : List α}
    (h₁ : (l₁.map f).Nodup) (h₂ : (l₂.map f).Nodup)
    (hd : ∀ a ∈ l₁, ∀ b ∈ l₂, f a ≠ f b) : ((l₁ ++ l₂).map f).Nodup := by
  rw [List.map_append, List.nodup_append]
  refine ⟨h₁, h₂, ?_⟩
  intro x hx hy
  obtain ⟨a, ha, rfl⟩ := List.mem_map.mp hx
  obtain ⟨b, hb, hfb⟩ := List.mem_map.mp hy
  exact hd a ha b hb hfb.symm

theorem nodup_map_of_pairwise_lt {f : α → Int} {l : List α}
    (h : l.Pairwise (fun a b => f a < f b)) : (l.map f).Nodup := by
  induction l with
  | nil => simp
  | cons x xs ih =>
    rw [List.pairwise_cons] at h
    rw [List.map_cons, List.nodup_cons]
    refine ⟨?_, ih h.2⟩
    intro hmem
    obtain ⟨a, ha, hfa⟩ := List.mem_map.mp hmem
    exact absurd (hfa ▸ h.1 a ha) (lt_irrefl _)

theorem instrEffect_I_ids (rid : Int) :
    ∀ (steps : List InstructionStep) (iid0 imgId0 : Int),
    ∀ row ∈ (instrEffect rid iid0 imgId0 steps).1,
      iid0 ≤ row.id ∧ row.id < (instrEffect rid iid0 imgId0 steps).2.2.2.1 := by
  intro steps
  induction steps with
  | nil => intro iid0 imgId0; simp [instrEffect]
  | cons st rest ih =>
    intro iid0 imgId0 row hmem
    have hnI := instrEffect_nI rid rest (iid0 + 1) (imgId0 + st.imageURLs.length)
    simp only [instrEffect, List.mem_cons] at hmem
    rcases hmem with rfl | hmem
    · constructor
      · simp
      · dsimp only [instrEffect]
        omega
    · obtain ⟨ha, hb⟩ := ih (iid0 + 1) (imgId0 + st.imageURLs.length) row hmem
      refine ⟨by omega, ?_⟩
      dsimp only [instrEffect]
      exact hb


theorem Inv_emptyDB : Inv emptyDB := by
  constructor <;> simp [emptyDB, IngTableInv, EqTableInv]

theorem Inv_insertEffect {db : DB} (r : Recipe) (h : Inv db) :
    Inv (insertEffect db r) := by
  have hingF := ingEffect_forall₂ db.nextRecipeId
    (r.ingredients.getD []) db.ingredients db.nextIngredientId
  have heqF := equipEffect_forall₂ db.nextRecipeId
    (r.requiredEquipment.getD []) db.equipment db.nextEquipmentId
  have hII := instrEffect_I_ids db.nextRecipeId (r.instructions.getD [])
    db.nextInstructionId db.nextImageId
  have hIF := instrEffect_I db.nextRecipeId (r.instructions.getD [])
    db.nextInstructionId db.nextImageId
  have hIm := instrEffect_Im db.nextRecipeId (r.instructions.getD [])
    db.nextInstructionId db.nextImageId
  have hImS := instrEffect_Im_sorted db.nextRecipeId (r.instructions.getD [])
    db.nextInstructionId db.nextImageId
  have hL := instrEffect_L db.nextRecipeId (r.instructions.getD [])
    db.nextInstructionId db.nextImageId
  have hLS := instrEffect_L_sorted db.nextRecipeId (r.instructions.getD [])
    db.nextInstructionId db.nextImageId
  have hnI := instrEffect_nI db.nextRecipeId (r.instructions.getD [])
    db.nextInstructionId db.nextImageId
  have hnM := instrEffect_nM_ge db.nextRecipeId (r.instructions.getD [])
    db.nextInstructionId db.nextImageId
  constructor
  case recipeSeqPos =>
    simp only [insertEffect]
    have := h.recipeSeqPos
    omega
  case recipeIds =>
    simp only [insertEffect]
    refine nodup_map_append h.recipeIds (by simp) ?_
    intro a ha b hb
    rcases List.mem_singleton.mp hb with rfl
    have := h.recipeIdBound a ha
    simp only [insertedRecipeRow]
    omega
  case recipeIdBound =>
    simp only [insertEffect]
    intro row hrow
    rcases List.mem_append.mp hrow with hrow' | hrow'
    · have := h.recipeIdBound row hrow'
      omega
    · rcases List.mem_singleton.mp hrow' with rfl
      simp [insertedRecipeRow]
  case ing =>
    simp only [insertEffect]
    exact ingEffect_table_inv _ _ h.ing
  case eqp =>
    simp only [insertEffect]
    exact equipEffect_table_inv _ _ h.eqp
  case riBound =>
    simp only [insertEffect]
    intro x hx
    rcases List.mem_append.mp hx with hx' | hx'
    · have := h.riBound x hx'
      omega
    · obtain ⟨a, -, hr⟩ := forall₂_mem_right hingF hx'
      omega
  case reBound =>
    simp only [insertEffect]
    intro x hx
    rcases List.mem_append.mp hx with hx' | hx'
    · have := h.reBound x hx'
      omega
    · obtain ⟨a, -, hr⟩ := forall₂_mem_right heqF hx'
      omega
  case instrRidBound =>
    simp only [insertEffect]
    intro x hx
    rcases List.mem_append.mp hx with hx' | hx'
    · have := h.instrRidBound x hx'
      omega
    · obtain ⟨a, -, hr⟩ := forall₂_mem_right hIF hx'
      omega
  case instrIdBound =>
    simp only [insertEffect]
    intro x hx
    rcases List.mem_append.mp hx with hx' | hx'
    · have := h.instrIdBound x hx'
      omega
    · exact (hII x hx').2
  case imgRidBound =>
    simp only [insertEffect]
    intro im him
    rcases List.mem_append.mp him with him' | him'
    · rcases List.mem_append.mp him' with him'' | him''
      · have := h.imgRidBound im him''
        omega
      · have := (hIm im him'').1
        omega
    · split at him'
      · cases him'
      · rcases List.mem_singleton.mp him' with rfl
        simp
  case imgIds =>
    simp only [insertEffect]
    have hold_new : ((db.recipeImages ++
        (instrEffect db.nextRecipeId db.nextInstructionId db.nextImageId
          (r.instructions.getD [])).2.1).map ImageRow.id).Nodup := by
      refine nodup_map_append h.imgIds (nodup_map_of_pairwise_lt hImS) ?_
      intro a ha b hb
      have h₁ := h.imgIdBound a ha
      have h₂ := (hIm b hb).2.2.1
      omega
    split
    · simpa using hold_new
    · refine nodup_map_append hold_new (by simp) ?_
      intro a ha b hb
      rcases List.mem_singleton.mp hb with rfl
      rcases List.mem_append.mp ha with ha' | ha'
      · have := h.imgIdBound a ha'
        simp only []
        omega
      · have := (hIm a ha').2.2.2
        simp only []
        omega
  case imgIdBound =>
    simp only [insertEffect]
    intro im him
    rcases List.mem_append.mp him with him' | him'
    · rcases List.mem_append.mp him' with him'' | him''
      · have := h.imgIdBound im him''
        split <;> omega
      · have := (hIm im him'').2.2.2
        split <;> omega
    · by_cases hdisp : (r.displayURL == "") = true
      · rw [if_pos hdisp] at him'
        cases him'
      · rw [if_neg hdisp] at him'
        rcases List.mem_singleton.mp him' with rfl
        rw [if_neg hdisp]
        simp
  case linkInstrBound =>
    simp only [insertEffect]
    intro l hl
    rcases List.mem_append.mp hl with hl' | hl'
    · have := h.linkInstrBound l hl'
      omega
    · exact (hL l hl').2.1
  case linkImgBound =>
    simp only [insertEffect]
    intro l hl
    rcases List.mem_append.mp hl with hl' | hl'
    · have := h.linkImgBound l hl'
      split <;> omega
    · have := (hL l hl').2.2.2
      split <;> omega
  case linkImgIds =>
    simp only [insertEffect]
    refine nodup_map_append h.linkImgIds (nodup_map_of_pairwise_lt hLS) ?_
    intro a ha b hb
    have h₁ := h.linkImgBound a ha
    have h₂ := (hL b hb).2.2.1
    omega
  case mains =>
    simp only [insertEffect]
    rw [List.filter_append, List.filter_append]
    have hImnil : (instrEffect db.nextRecipeId db.nextInstructionId db.nextImageId
        (r.instructions.getD [])).2.1.filter (fun im => im.imageType.isMain) = [] := by
      rw [List.filter_eq_nil_iff]
      intro im him
      have := (hIm im him).2.1
      simp [this, ImageType.isMain]
    rw [hImnil, List.append_nil]
    split
    · simpa using h.mains
    · rw [List.filter_cons]
      simp only [ImageType.isMain, List.filter_nil]
      refine nodup_map_append h.mains (by simp) ?_
      intro a ha b hb
      rcases List.mem_singleton.mp hb with rfl
      have := h.imgRidBound a (List.mem_of_mem_filter ha)
      simp only []
      omega

theorem Inv_updateEffect {db : DB} {r : Recipe} (h : Inv db)
    (hmatch : db.recipes.any
      (fun row => row.id == r.id && row.version == r.version) = true) :
    Inv (updateEffect db r) := by
  obtain ⟨rowm, hrowm, hrowmp⟩ := List.any_eq_true.mp hmatch
  simp only [Bool.and_eq_true, beq_iff_eq] at hrowmp
  have hridlt : r.id < db.nextRecipeId := hrowmp.1 ▸ h.recipeIdBound rowm hrowm
  have hingF := ingEffect_forall₂ r.id
    (r.ingredients.getD []) db.ingredients db.nextIngredientId
  have heqF := equipEffect_forall₂ r.id
    (r.requiredEquipment.getD []) db.equipment db.nextEquipmentId
  have hII := instrEffect_I_ids r.id (r.instructions.getD [])
    db.nextInstructionId db.nextImageId
  have hIF := instrEffect_I r.id (r.instructions.getD [])
    db.nextInstructionId db.nextImageId
  have hIm := instrEffect_Im r.id (r.instructions.getD [])
    db.nextInstructionId db.nextImageId
  have hImS := instrEffect_Im_sorted r.id (r.instructions.getD [])
    db.nextInstructionId db.nextImageId
  have hL := instrEffect_L r.id (r.instructions.getD [])
    db.nextInstructionId db.nextImageId
  have hLS := instrEffect_L_sorted r.id (r.instructions.getD [])
    db.nextInstructionId db.nextImageId
  have hnM := instrEffect_nM_ge r.id (r.instructions.getD [])
    db.nextInstructionId db.nextImageId
  constructor
  case recipeSeqPos =>
    exact h.recipeSeqPos
  case recipeIds =>
    have hids : (updateEffect db r).recipes.map RecipeRow.id =
        db.recipes.map RecipeRow.id := by
      simp only [updateEffect]
      rw [List.map_map]
      apply List.map_congr_left
      intro row hrow
      simp only [Function.comp]
      split <;> rfl
    rw [hids]
    exact h.recipeIds
  case recipeIdBound =>
    simp only [updateEffect]
    intro row hrow
    obtain ⟨row₀, hrow₀, rfl⟩ := List.mem_map.mp hrow
    have := h.recipeIdBound row₀ hrow₀
    split <;> simpa
  case ing =>
    simp only [updateEffect]
    exact ingEffect_table_inv _ _ h.ing
  case eqp =>
    simp only [updateEffect]
    exact equipEffect_table_inv _ _ h.eqp
  case riBound =>
    simp only [updateEffect]
    intro x hx
    rcases List.mem_append.mp hx with hx' | hx'
    · exact h.riBound x (List.mem_of_mem_filter hx')
    · obtain ⟨a, -, hr⟩ := forall₂_mem_right hingF hx'
      omega
  case reBound =>
    simp only [updateEffect]
    intro x hx
    rcases List.mem_append.mp hx with hx' | hx'
    · exact h.reBound x (List.mem_of_mem_filter hx')
    · obtain ⟨a, -, hr⟩ := forall₂_mem_right heqF hx'
      omega
  case instrRidBound =>
    simp only [updateEffect]
    intro x hx
    rcases List.mem_append.mp hx with hx' | hx'
    · exact h.instrRidBound x (List.mem_of_mem_filter hx')
    · obtain ⟨a, -, hr⟩ := forall₂_mem_right hIF hx'
      omega
  case instrIdBound =>
    simp only [updateEffect]
    intro x hx
    rcases List.mem_append.mp hx with hx' | hx'
    · have := h.instrIdBound x (List.mem_of_mem_filter hx')
      have := instrEffect_nI r.id (r.instructions.getD [])
        db.nextInstructionId db.nextImageId
      omega
    · exact (hII x hx').2
  case imgRidBound =>
    simp only [updateEffect]
    intro im him
    rcases List.mem_append.mp him with him' | him'
    · rcases List.mem_append.mp him' with him'' | him''
      · exact h.imgRidBound im (List.mem_of_mem_filter him'')
      · have := (hIm im him'').1
        omega
    · by_cases hdisp : (r.displayURL == "") = true
      · rw [if_pos hdisp] at him'
        cases him'
      · rw [if_neg hdisp] at him'
        rcases List.mem_singleton.mp him' with rfl
        simpa using hridlt
  case imgIds =>
    simp only [updateEffect]
    have hsub : ((db.recipeImages.filter
        (fun im => !(im.recipeId == r.id && im.imageType.isMain))).map
        ImageRow.id).Nodup :=
      ((List.filter_sublist _).map _).nodup h.imgIds
    have hold_new : (((db.recipeImages.filter
        (fun im => !(im.recipeId == r.id && im.imageType.isMain))) ++
        (instrEffect r.id db.nextInstructionId db.nextImageId
          (r.instructions.getD [])).2.1).map ImageRow.id).Nodup := by
      refine nodup_map_append hsub (nodup_map_of_pairwise_lt hImS) ?_
      intro a ha b hb
      have h₁ := h.imgIdBound a (List.mem_of_mem_filter ha)
      have h₂ := (hIm b hb).2.2.1
      omega
    split
    · simpa using hold_new
    · refine nodup_map_append hold_new (by simp) ?_
      intro a ha b hb
      rcases List.mem_singleton.mp hb with rfl
      rcases List.mem_append.mp ha with ha' | ha'
      · have := h.imgIdBound a (List.mem_of_mem_filter ha')
        simp only []
        omega
      · have := (hIm a ha').2.2.2
        simp only []
        omega
  case imgIdBound =>
    simp only [updateEffect]
    intro im him
    rcases List.mem_append.mp him with him' | him'
    · rcases List.mem_append.mp him' with him'' | him''
      · have := h.imgIdBound im (List.mem_of_mem_filter him'')
        split <;> omega
      · have := (hIm im him'').2.2.2
        split <;> omega
    · by_cases hdisp : (r.displayURL == "") = true
      · rw [if_pos hdisp] at him'
        cases him'
      · rw [if_neg hdisp] at him'
        rcases List.mem_singleton.mp him' with rfl
        rw [if_neg hdisp]
        simp
  case linkInstrBound =>
    simp only [updateEffect]
    intro l hl
    rcases List.mem_append.mp hl with hl' | hl'
    · have := h.linkInstrBound l (List.mem_of_mem_filter hl')
      have := instrEffect_nI r.id (r.instructions.getD [])
        db.nextInstructionId db.nextImageId
      omega
    · exact (hL l hl').2.1
  case linkImgBound =>
    simp only [updateEffect]
    intro l hl
    rcases List.mem_append.mp hl with hl' | hl'
    · have := h.linkImgBound l (List.mem_of_mem_filter hl')
      split <;> omega
    · have := (hL l hl').2.2.2
      split <;> omega
  case linkImgIds =>
    simp only [updateEffect]
    refine nodup_map_append (((List.filter_sublist _).map _).nodup h.linkImgIds)
      (nodup_map_of_pairwise_lt hLS) ?_
    intro a ha b hb
    have h₁ := h.linkImgBound a (List.mem_of_mem_filter ha)
    have h₂ := (hL b hb).2.2.1
    omega
  case mains =>
    simp only [updateEffect]
    rw [List.filter_append, List.filter_append]
    have hImnil : (instrEffect r.id db.nextInstructionId db.nextImageId
        (r.instructions.getD [])).2.1.filter (fun im => im.imageType.isMain) = [] := by
      rw [List.filter_eq_nil_iff]
      intro im him
      have := (hIm im him).2.1
      simp [this, ImageType.isMain]
    rw [hImnil, List.append_nil]
    have hsub : (((db.recipeImages.filter
        (fun im => !(im.recipeId == r.id && im.imageType.isMain))).filter
        (fun im => im.imageType.isMain)).map ImageRow.recipeId).Nodup :=
      ((((List.filter_sublist _).filter _).map _).nodup h.mains)
    have hnotrid : ∀ im ∈ (db.recipeImages.filter
        (fun im => !(im.recipeId == r.id && im.imageType.isMain))).filter
        (fun im => im.imageType.isMain), im.recipeId ≠ r.id := by
      intro im him him_rid
      have h₁ := List.mem_filter.mp him
      have h₂ := List.mem_filter.mp h₁.1
      rw [h₁.2] at h₂
      simp [him_rid] at h₂
    split
    · simpa using hsub
    · rw [List.filter_cons]
      simp only [ImageType.isMain, List.filter_nil]
      refine nodup_map_append hsub (by simp) ?_
      intro a ha b hb
      rcases List.mem_singleton.mp hb with rfl
      simp only []
      exact hnotrid a ha

theorem Inv_deleteEffect {db : DB} (id : Int) (h : Inv db) :
    Inv (deleteEffect db id) := by
  constructor
  case recipeSeqPos =>
    exact h.recipeSeqPos
  case recipeIds =>
    exact ((List.filter_sublist _).map _).nodup h.recipeIds
  case recipeIdBound =>
    intro row hrow
    exact h.recipeIdBound row (List.mem_of_mem_filter hrow)
  case ing => exact h.ing
  case eqp => exact h.eqp
  case riBound =>
    intro x hx
    exact h.riBound x (List.mem_of_mem_filter hx)
  case reBound =>
    intro x hx
    exact h.reBound x (List.mem_of_mem_filter hx)
  case instrRidBound =>
    intro x hx
    exact h.instrRidBound x (List.mem_of_mem_filter hx)
  case instrIdBound =>
    intro x hx
    exact h.instrIdBound x (List.mem_of_mem_filter hx)
  case imgRidBound =>
    intro im him
    exact h.imgRidBound im (List.mem_of_mem_filter him)
  case imgIds =>
    exact ((List.filter_sublist _).map _).nodup h.imgIds
  case imgIdBound =>
    intro im him
    exact h.imgIdBound im (List.mem_of_mem_filter him)
  case linkInstrBound =>
    intro l hl
    exact h.linkInstrBound l (List.mem_of_mem_filter hl)
  case linkImgBound =>
    intro l hl
    exact h.linkImgBound l (List.mem_of_mem_filter hl)
  case linkImgIds =>
    exact ((List.filter_sublist _).map _).nodup h.linkImgIds
  case mains =>
    exact ((((List.filter_sublist _).filter _).map _).nodup h.mains)

theorem Inv_applyOp {db : DB} (h : Inv db) (op : Op) : Inv (applyOp db op) := by
  cases op with
  | insert fail r =>
    rcases Insert_snd fail db r with he | he <;> rw [applyOp, he]
    · exact h
    · exact Inv_insertEffect r h
  | update fail r =>
    rcases Update_snd fail db r with he | ⟨hm, he⟩ <;> rw [applyOp, he]
    · exact h
    · exact Inv_updateEffect h hm
  | delete id =>
    rcases Delete_snd db id with he | he <;> rw [applyOp, he]
    · exact h
    · exact Inv_deleteEffect id h

theorem Inv_execOps (ops : List Op) : ∀ {db : DB}, Inv db → Inv (execOps db ops) := by
  induction ops with
  | nil => intro db h; exact h
  | cons op rest ih =>
    intro db h
    exact ih (Inv_applyOp h op)

/-! ### Reading back a freshly inserted aggregate -/

/-- The duration codec round-trips at the value level: zero goes to NULL and
NULL comes back as zero. -/
theorem interval_roundtrip (d : Int) : intervalToDuration (durationToInterval d) = d := by
  unfold durationToInterval intervalToDuration
  split <;> simp_all

theorem nilIfZero_roundtrip (v : Int) : (nilIfZero v).getD 0 = v := by
  unfold nilIfZero
  split <;> simp_all

theorem rowChecksOk_of_nonneg {r : Recipe} (hp : 0 ≤ r.prepTime)
    (ha : 0 ≤ r.activeTime) (hs : 0 ≤ r.servings) :
    rowChecksOk (durationToInterval r.prepTime) (durationToInterval r.activeTime)
      (nilIfZero r.servings) = true := by
  unfold rowChecksOk durationToInterval nilIfZero
  split <;> split <;> split <;> simp_all <;> omega

theorem forall₂_filterMap_some {Q : α → β → Prop} {R : α → γ → Prop}
    {f : β → Option γ} {l₁ : List α} {l₂ : List β}
    (h : List.Forall₂ Q l₁ l₂)
    (hf : ∀ a b, Q a b → ∃ c, f b = some c ∧ R a c) :
    List.Forall₂ R l₁ (l₂.filterMap f) := by
  induction h with
  | nil => exact List.Forall₂.nil
  | cons hab hrest ih =>
    obtain ⟨c, hc, hr⟩ := hf _ _ hab
    rw [List.filterMap_cons, hc]
    exact List.Forall₂.cons hr ih

theorem forall₂_map_eq {R : α → β → Prop} {l₁ : List α} {l₂ : List β}
    {f : β → γ} {g : α → γ} (h : List.Forall₂ R l₁ l₂)
    (hfg : ∀ a b, R a b → f b = g a) : l₂.map f = l₁.map g := by
  induction h with
  | nil => rfl
  | cons hab hrest ih => simp [ih, hfg _ _ hab]

theorem forall₂_eq_lists {l₁ l₂ : List α}
    (h : List.Forall₂ (fun a b => b = a) l₁ l₂) : l₂ = l₁ := by
  induction h with
  | nil => rfl
  | cons hab hrest ih => simp [ih, hab]

/-- The fresh recipe row is found by its assigned id. -/
theorem find_recipeRow {db : DB} (r : Recipe) (h : Inv db) :
    (insertEffect db r).recipes.find? (fun row => row.id == db.nextRecipeId) =
      some (insertedRecipeRow db r) := by
  simp only [insertEffect]
  rw [find?_append_of_none]
  · simp [insertedRecipeRow]
  · rw [List.find?_eq_none]
    intro row hrow
    have := h.recipeIdBound row hrow
    simp only [beq_iff_eq]
    omega

/-- Reading the ingredients of the fresh recipe gives the input entries,
sorted by ingredient name, with store-assigned reference ids. -/
theorem readIngredients_insertEffect {db : DB} (r : Recipe) (h : Inv db) :
    List.Forall₂ (fun (e : IngredientEntry) (g : IngredientEntry) =>
      g.ingredient = e.ingredient ∧ g.amount = e.amount ∧ g.unit = e.unit ∧
        g.optional = e.optional)
      (insSort (fun a b => strLe a.ingredient b.ingredient) (r.ingredients.getD []))
      (readIngredients (insertEffect db r) db.nextRecipeId) := by
  have htbl := ingEffect_table_inv db.nextRecipeId
    (r.ingredients.getD []) h.ing
  have hF := ingEffect_forall₂ db.nextRecipeId
    (r.ingredients.getD []) db.ingredients db.nextIngredientId
  unfold readIngredients
  have hjoin : List.Forall₂ (fun (e : IngredientEntry) (g : IngredientEntry) =>
      g.ingredient = e.ingredient ∧ g.amount = e.amount ∧ g.unit = e.unit ∧
        g.optional = e.optional)
      (r.ingredients.getD [])
      ((insertEffect db r).recipeIngredients.filterMap (fun ri =>
        if ri.recipeId == db.nextRecipeId then
          ((insertEffect db r).ingredients.find?
            (fun i => i.id == ri.ingredientId)).map (fun i =>
            { id := i.id, ingredient := i.name, amount := ri.quantity,
              unit := ri.unit, optional := ri.optional })
        else none)) := by
    have hri : (insertEffect db r).recipeIngredients =
        db.recipeIngredients ++ (ingEffect db.nextRecipeId (r.ingredients.getD [])
          db.ingredients db.nextIngredientId).2.1 := by
      simp [insertEffect]
    rw [hri, List.filterMap_append]
    have hnil : db.recipeIngredients.filterMap (fun ri =>
        if ri.recipeId == db.nextRecipeId then
          ((insertEffect db r).ingredients.find?
            (fun i => i.id == ri.ingredientId)).map (fun i =>
            ({ id := i.id, ingredient := i.name, amount := ri.quantity,
               unit := ri.unit, optional := ri.optional } : IngredientEntry))
        else none) = [] := by
      rw [List.filterMap_eq_nil_iff]
      intro ri hri'
      have := h.riBound ri hri'
      have hne : (ri.recipeId == db.nextRecipeId) = false := by
        simp only [beq_eq_false_iff_ne, ne_eq]
        omega
      rw [hne]
      simp
    rw [hnil, List.nil_append]
    refine forall₂_filterMap_some hF ?_
    intro e b hQ
    obtain ⟨hrid, hq, hu, ho, hmem⟩ := hQ
    have hfind : (insertEffect db r).ingredients.find?
        (fun i => i.id == b.ingredientId) =
        some { id := b.ingredientId, name := e.ingredient } := by
      have hnd : ((insertEffect db r).ingredients.map IngredientRow.id).Nodup := by
        have : (insertEffect db r).ingredients = db.ingredients ++
            (ingEffect db.nextRecipeId (r.ingredients.getD [])
              db.ingredients db.nextIngredientId).1 := by
          simp [insertEffect]
        rw [this]
        exact htbl.2.1
      have hmem' : ({ id := b.ingredientId, name := e.ingredient } : IngredientRow) ∈
          (insertEffect db r).ingredients := by
        have : (insertEffect db r).ingredients = db.ingredients ++
            (ingEffect db.nextRecipeId (r.ingredients.getD [])
              db.ingredients db.nextIngredientId).1 := by
          simp [insertEffect]
        rw [this]
        exact hmem
      exact find?_key_unique IngredientRow.id hnd hmem'
    refine ⟨{ id := b.ingredientId, ingredient := e.ingredient, amount := b.quantity,
              unit := b.unit, optional := b.optional }, ?_, ?_⟩
    · rw [if_pos (by simp [hrid]), hfind]
      rfl
    · exact ⟨rfl, hq, hu, ho⟩
  exact forall₂_insSort _ _ _
    (by
      intro a b a' b' hab hab'
      simp [hab.1, hab'.1])
    hjoin

/-- Reading the equipment of the fresh recipe gives the input names sorted. -/
theorem readEquipment_insertEffect {db : DB} (r : Recipe) (h : Inv db) :
    readEquipment (insertEffect db r) db.nextRecipeId =
      insSort strLe (r.requiredEquipment.getD []) := by
  have htbl := equipEffect_table_inv db.nextRecipeId
    (r.requiredEquipment.getD []) h.eqp
  have hF := equipEffect_forall₂ db.nextRecipeId
    (r.requiredEquipment.getD []) db.equipment db.nextEquipmentId
  unfold readEquipment
  have hjoin : List.Forall₂ (fun (nm : String) (g : String) => g = nm)
      (r.requiredEquipment.getD [])
      ((insertEffect db r).recipeEquipment.filterMap (fun re =>
        if re.recipeId == db.nextRecipeId then
          ((insertEffect db r).equipment.find?
            (fun e => e.id == re.equipmentId)).map (fun e => e.name)
        else none)) := by
    have hre : (insertEffect db r).recipeEquipment =
        db.recipeEquipment ++ (equipEffect db.nextRecipeId
          (r.requiredEquipment.getD []) db.equipment db.nextEquipmentId).2.1 := by
      simp [insertEffect]
    rw [hre, List.filterMap_append]
    have hnil : db.recipeEquipment.filterMap (fun re =>
        if re.recipeId == db.nextRecipeId then
          ((insertEffect db r).equipment.find?
            (fun e => e.id == re.equipmentId)).map (fun e => e.name)
        else none) = [] := by
      rw [List.filterMap_eq_nil_iff]
      intro re hre'
      have := h.reBound re hre'
      have hne : (re.recipeId == db.nextRecipeId) = false := by
        simp only [beq_eq_false_iff_ne, ne_eq]
        omega
      rw [hne]
      simp
    rw [hnil, List.nil_append]
    refine forall₂_filterMap_some hF ?_
    intro nm b hQ
    obtain ⟨hrid, hmem⟩ := hQ
    have hfind : (insertEffect db r).equipment.find?
        (fun e => e.id == b.equipmentId) =
        some { id := b.equipmentId, name := nm } := by
      have heqt : (insertEffect db r).equipment = db.equipment ++
          (equipEffect db.nextRecipeId (r.requiredEquipment.getD [])
            db.equipment db.nextEquipmentId).1 := by
        simp [insertEffect]
      have hnd : ((insertEffect db r).equipment.map EquipmentRow.id).Nodup := by
        rw [heqt]
        exact htbl.2.1
      have hmem' : ({ id := b.equipmentId, name := nm } : EquipmentRow) ∈
          (insertEffect db r).equipment := by
        rw [heqt]
        exact hmem
      exact find?_key_unique EquipmentRow.id hnd hmem'
    refine ⟨nm, ?_, rfl⟩
    rw [if_pos (by simp [hrid]), hfind]
    rfl
  have := forall₂_insSort (fun (nm : String) (g : String) => g = nm) strLe strLe
    (by
      intro a b a' b' hab hab'
      rw [hab, hab'])
    hjoin
  exact forall₂_eq_lists this

/-- The instruction rows of the fresh recipe are exactly the effect rows. -/
theorem instrFilter_insertEffect {db : DB} (r : Recipe) (h : Inv db) :
    (insertEffect db r).recipeInstructions.filter
      (fun x => x.recipeId == db.nextRecipeId) =
    (instrEffect db.nextRecipeId db.nextInstructionId db.nextImageId
      (r.instructions.getD [])).1 := by
  have hIF := instrEffect_I db.nextRecipeId (r.instructions.getD [])
    db.nextInstructionId db.nextImageId
  have hin : (insertEffect db r).recipeInstructions =
      db.recipeInstructions ++ (instrEffect db.nextRecipeId db.nextInstructionId
        db.nextImageId (r.instructions.getD [])).1 := by
    simp [insertEffect]
  rw [hin, List.filter_append]
  have hnil : db.recipeInstructions.filter
      (fun x => x.recipeId == db.nextRecipeId) = [] := by
    rw [List.filter_eq_nil_iff]
    intro x hx
    have := h.instrRidBound x hx
    simp only [beq_iff_eq]
    omega
  have hall : (instrEffect db.nextRecipeId db.nextInstructionId db.nextImageId
      (r.instructions.getD [])).1.filter
      (fun x => x.recipeId == db.nextRecipeId) =
      (instrEffect db.nextRecipeId db.nextInstructionId db.nextImageId
        (r.instructions.getD [])).1 := by
    rw [List.filter_eq_self]
    intro x hx
    obtain ⟨st, -, hst⟩ := forall₂_mem_right hIF hx
    simp [hst.1]
  rw [hnil, hall, List.nil_append]

/-- The display image query of the fresh recipe returns its display URL. -/
theorem display_insertEffect {db : DB} (r : Recipe) (h : Inv db) :
    (match (insertEffect db r).recipeImages.find?
        (fun im => im.recipeId == db.nextRecipeId && im.imageType.isMain) with
     | some im => im.url
     | none => "") = r.displayURL := by
  have hIm := instrEffect_Im db.nextRecipeId (r.instructions.getD [])
    db.nextInstructionId db.nextImageId
  have himgs : (insertEffect db r).recipeImages =
      (db.recipeImages ++ (instrEffect db.nextRecipeId db.nextInstructionId
        db.nextImageId (r.instructions.getD [])).2.1) ++
      (if r.displayURL == "" then []
       else [{ id := (instrEffect db.nextRecipeId db.nextInstructionId
                db.nextImageId (r.instructions.getD [])).2.2.2.2,
               recipeId := db.nextRecipeId, url := r.displayURL,
               imageType := .main }]) := by
    simp [insertEffect, List.append_assoc]
  rw [himgs]
  rw [find?_append_of_none]
  · by_cases hdisp : (r.displayURL == "") = true
    · rw [if_pos hdisp]
      simp only [List.find?_nil]
      exact (eq_of_beq hdisp).symm
    · rw [if_neg hdisp]
      simp [ImageType.isMain]
  · rw [List.find?_eq_none]
    intro im him
    rcases List.mem_append.mp him with him' | him'
    · have := h.imgRidBound im him'
      simp only [Bool.and_eq_true, beq_iff_eq, not_and]
      intro hr
      omega
    · have := (hIm im him').2.1
      simp [this, ImageType.isMain]


/-- Insert-then-Get round trip: a fault-free insert of a valid payload with
distinct ingredient names, distinct equipment names and distinct step numbers
succeeds, and the fetched aggregate carries the payload's data back with the
collections in the reader's orders (ingredients and equipment sorted by name,
instructions sorted by step number), store-assigned identity, version 1, and
zero values for the unpersisted `Creator`/`Public` fields. -/
theorem insert_get_roundtrip {db : DB} {r : Recipe} (h : Inv db)
    (hprep : 0 ≤ r.prepTime) (hactive : 0 ≤ r.activeTime) (hserv : 0 ≤ r.servings)
    (hnamesI : ((r.ingredients.getD []).map IngredientEntry.ingredient).Nodup)
    (hnamesE : (r.requiredEquipment.getD []).Nodup) :
    RecipeModel.Insert noFail db r =
      (.ok (db.nextRecipeId, db.now, 1), insertEffect db r) ∧
    ∃ g, (RecipeModel.Get (insertEffect db r) db.nextRecipeId).1 = .ok g ∧
      g.id = db.nextRecipeId ∧ g.createdAt = db.now ∧ g.version = 1 ∧
      g.name = r.name ∧ g.description = r.description ∧ g.notes = r.notes ∧
      g.sourceURL = r.sourceURL ∧ g.displayURL = r.displayURL ∧
      g.prepTime = r.prepTime ∧ g.activeTime = r.activeTime ∧
      g.servings = r.servings ∧ g.creator = "" ∧ g.public = false ∧
      (∃ l, g.ingredients = some l ∧
        l.map entryData = (insSort entryNameLe (r.ingredients.getD [])).map entryData) ∧
      g.requiredEquipment = some (insSort strLe (r.requiredEquipment.getD [])) ∧
      (∃ l, g.instructions = some l ∧
        l.map stepData =
          (insSort stepNumberLe (r.instructions.getD [])).map stepData) := by
  have hins := Insert_total
    (rowChecksOk_of_nonneg hprep hactive hserv) h.ing h.eqp hnamesI hnamesE
    (fun x hx => ne_of_lt (h.riBound x hx))
    (fun x hx => ne_of_lt (h.reBound x hx))
    h.linkImgBound
  refine ⟨hins, ?_⟩
  have hpos : ¬ (db.nextRecipeId < 1) := by
    have := h.recipeSeqPos
    omega
  have hfind := find_recipeRow r h
  have hING := readIngredients_insertEffect r h
  have hEQ := readEquipment_insertEffect r h
  have hINSF := instrFilter_insertEffect r h
  have hDISP := display_insertEffect r h
  have hIF := instrEffect_I db.nextRecipeId (r.instructions.getD [])
    db.nextInstructionId db.nextImageId
  have hRB := instrEffect_readback db.nextRecipeId (r.instructions.getD [])
    db.nextInstructionId db.nextImageId (insertEffect db r)
    db.instructionImages []
    (by simp [insertEffect])
    h.linkInstrBound
    (by simp)
    (Inv_insertEffect r h).imgIds
    (by
      intro im him
      simp only [insertEffect]
      exact List.mem_append_left _ (List.mem_append_right _ him))
  have hBOTH := forall₂_and hIF hRB
  have hSORT := forall₂_insSort _ stepNumberLe
    (fun a b => decide (a.stepNumber ≤ b.stepNumber)) ?hcompat hBOTH
  case hcompat =>
    intro a b a' b' hab hab'
    simp [stepNumberLe, hab.1.2.1, hab'.1.2.1]
  unfold RecipeModel.Get
  rw [if_neg hpos, hfind]
  refine ⟨_, rfl, ?_, ?_, ?_, ?_, ?_, ?_, ?_, ?_, ?_, ?_, ?_, rfl, rfl, ?_, ?_, ?_⟩
  · simp [insertedRecipeRow]
  · simp [insertedRecipeRow]
  · simp [insertedRecipeRow]
  · simp [insertedRecipeRow]
  · simp [insertedRecipeRow]
  · simp [insertedRecipeRow]
  · simp [insertedRecipeRow]
  · exact hDISP
  · simp [insertedRecipeRow, interval_roundtrip]
  · simp [insertedRecipeRow, interval_roundtrip]
  · simp [insertedRecipeRow, nilIfZero_roundtrip]
  · refine ⟨_, rfl, ?_⟩
    refine forall₂_map_eq hING ?_
    intro a b hab
    simp [entryData, hab.1, hab.2.1, hab.2.2.1, hab.2.2.2]
  · rw [hEQ]
  · refine ⟨_, rfl, ?_⟩
    rw [hINSF, List.map_map]
    refine forall₂_map_eq hSORT ?_
    intro a b hab
    simp only [Function.comp, stepData]
    rw [hab.1.2.1, hab.1.2.2.1, hab.1.2.2.2, hab.2]

/-! ### The conflict path of `Update` -/

/-- When no stored row matches the supplied `(id, version)`, a fault-free
`Update` fails with `EditConflict` at its first statement, leaving the store
untouched. -/
theorem Update_noMatch {db : DB} {r : Recipe}
    (h : db.recipes.any (fun row => row.id == r.id && row.version == r.version) = false) :
    RecipeModel.Update noFail db r = (.error .editConflict, db) := by
  have h1 : updateRecipeRow r db = .error .editConflict := by
    unfold updateRecipeRow
    dsimp only
    rw [h]
    rfl
  have h2 : runStmt noFail (updateRecipeRow r) { db := db, stmts := 0 } =
      (.error .editConflict : Except Err (Int × St)) := by
    unfold runStmt
    rw [h1]
    rfl
  unfold RecipeModel.Update updateBody
  rw [h2]
  rfl

/-! ### Lemmas about the lister -/

theorem filter_and_key_len_le_one {f : α → Int} {p : α → Bool} {l : List α}
    (h : ((l.filter p).map f).Nodup) (c : Int) :
    (l.filter (fun x => f x == c && p x)).length ≤ 1 := by
  induction l with
  | nil => simp
  | cons a l ih =>
    by_cases hp : p a = true
    · rw [List.filter_cons_of_pos hp] at h
      rw [List.map_cons, List.nodup_cons] at h
      by_cases hf : f a = c
      · rw [List.filter_cons_of_pos (by simp [hf, hp])]
        have hnil : l.filter (fun x => f x == c && p x) = [] := by
          rw [List.filter_eq_nil_iff]
          intro x hx hcx
          simp only [Bool.and_eq_true, beq_iff_eq] at hcx
          apply h.1
          rw [hf, ← hcx.1]
          exact List.mem_map_of_mem f (List.mem_filter.mpr ⟨hx, hcx.2⟩)
        simp [hnil]
      · rw [List.filter_cons_of_neg (by simp [hf])]
        exact ih h.2
    · have hpf : p a = false := by simpa using hp
      rw [List.filter_cons_of_neg (by simp [hpf])] at h
      rw [List.filter_cons_of_neg (by simp [hpf])]
      exact ih h

/-- Under the at-most-one-`main`-image-per-recipe invariant, the `main`
images of one recipe number at most one. -/
theorem mains_len_le_one {db : DB}
    (h : ((db.recipeImages.filter (fun im => im.imageType.isMain)).map
      ImageRow.recipeId).Nodup) (rid : Int) :
    (db.recipeImages.filter
      (fun im => im.recipeId == rid && im.imageType.isMain)).length ≤ 1 :=
  filter_and_key_len_le_one h rid

/-- A flat map whose per-element block carries its element exactly once
projects back to the input list. -/
theorem flatMap_singleton_fst {g : RecipeRow → List (RecipeRow × Option String)}
    (hg : ∀ row, (g row).map Prod.fst = [row]) (rows : List RecipeRow) :
    (rows.flatMap g).map Prod.fst = rows := by
  induction rows with
  | nil => rfl
  | cons row rows ih =>
    rw [List.flatMap_cons, List.map_append, ih, hg]
    rfl

/-- The resolved comparison for `sort = "id"` is ascending row id. -/
theorem resolveLe_id (a b : RecipeRow × Option String) :
    resolveLe "id" a b = rowIdLe a.1 b.1 := by
  unfold resolveLe rowIdLe
  simp +decide [sortColumnLe]

/-- `Get` on a stored row id (under unique ids) succeeds and reads the row's
scalar columns back, NULL intervals as zero durations. -/
theorem get_found {db : DB} {id : Int} {row : RecipeRow}
    (hnd : (db.recipes.map RecipeRow.id).Nodup) (hrow : row ∈ db.recipes)
    (hid : row.id = id) (hpos : 1 ≤ id) :
    ∃ g n, RecipeModel.Get db id = (.ok g, n) ∧
      g.prepTime = intervalToDuration row.prepTime ∧
      g.activeTime = intervalToDuration row.activeTime ∧
      g.id = row.id ∧ g.version = row.version ∧
      (∃ l, g.ingredients = some l) ∧ (∃ l, g.requiredEquipment = some l) ∧
      (∃ l, g.instructions = some l) := by
  have hfind : db.recipes.find? (fun y => y.id == id) = some row := by
    have hfu := find?_key_unique RecipeRow.id hnd hrow
    rwa [hid] at hfu
  unfold RecipeModel.Get
  rw [if_neg (by omega), hfind]
  exact ⟨_, _, rfl, rfl, rfl, rfl, rfl, ⟨_, rfl⟩, ⟨_, rfl⟩, ⟨_, rfl⟩⟩

/-- `GetAll` under ascending-id sort: the page is the `LIMIT/OFFSET` slice of
the id-sorted filtered rows, and the reported total is the pre-pagination
match count on a non-empty page but zero on an empty one. -/
theorem getAll_id_slice (db : DB) (nm : String) (ings eqs : List String)
    (pt atv : Int) (filters : Filters)
    (hmains : ((db.recipeImages.filter (fun im => im.imageType.isMain)).map
      ImageRow.recipeId).Nodup)
    (hsort : filters.sort = "id") (hpage : 1 ≤ filters.page)
    (hps : 1 ≤ filters.pageSize) :
    ∃ out md,
      RecipeModel.GetAll db nm ings eqs pt atv filters = .ok (out, md) ∧
      out.map Recipe.id =
        (((insSort rowIdLe (db.recipes.filter
            (getAllFilter db nm ings eqs pt atv))).map RecipeRow.id).drop
          ((filters.page - 1) * filters.pageSize).toNat).take
          filters.pageSize.toNat ∧
      md.currentPage = filters.page ∧ md.pageSize = filters.pageSize ∧
      (out ≠ [] → md.totalRecords =
        ((db.recipes.filter (getAllFilter db nm ings eqs pt atv)).length : Int)) ∧
      (out = [] → md.totalRecords = 0) := by
  have hoff : 0 ≤ (filters.page - 1) * filters.pageSize :=
    mul_nonneg (by omega) (by omega)
  have hmeta : ∀ t p s, (calculateMetadata t p s).currentPage = p ∧
      (calculateMetadata t p s).pageSize = s ∧
      (calculateMetadata t p s).totalRecords = t := by
    intro t p s
    unfold calculateMetadata
    split
    · next ht => exact ⟨rfl, rfl, ht.symm⟩
    · exact ⟨rfl, rfl, rfl⟩
  have hper : ∀ row : RecipeRow,
      ((if (db.recipeImages.filter
          (fun im => im.recipeId == row.id && im.imageType.isMain)).isEmpty then
          [(row, (none : Option String))]
        else (db.recipeImages.filter
          (fun im => im.recipeId == row.id && im.imageType.isMain)).map
            (fun im => (row, some im.url))).map Prod.fst) = [row] := by
    intro row
    have hl := mains_len_le_one hmains row.id
    cases hm : db.recipeImages.filter
        (fun im => im.recipeId == row.id && im.imageType.isMain) with
    | nil => rfl
    | cons a t =>
      cases t with
      | nil => rfl
      | cons b t' => rw [hm] at hl; simp at hl
  unfold RecipeModel.GetAll
  dsimp only
  rw [hsort]
  rw [if_neg (by simp only [Bool.or_eq_true, decide_eq_true_eq]; omega)]
  refine ⟨_, _, rfl, ?_, ?_, ?_, ?_, ?_⟩
  · rw [List.map_map]
    rw [List.map_take, List.map_drop]
    have hsm : (insSort (resolveLe "id")
        ((db.recipes.filter (getAllFilter db nm ings eqs pt atv)).flatMap (fun row =>
          if (db.recipeImages.filter
              (fun im => im.recipeId == row.id && im.imageType.isMain)).isEmpty then
            [(row, (none : Option String))]
          else (db.recipeImages.filter
            (fun im => im.recipeId == row.id && im.imageType.isMain)).map
              (fun im => (row, some im.url))))).map
        (fun rw => RecipeRow.id rw.1) =
        (insSort rowIdLe (db.recipes.filter
          (getAllFilter db nm ings eqs pt atv))).map RecipeRow.id := by
      rw [show (fun rw : RecipeRow × Option String => RecipeRow.id rw.1) =
        RecipeRow.id ∘ Prod.fst from rfl, ← List.map_map]
      rw [map_insSort Prod.fst (resolveLe "id") rowIdLe resolveLe_id]
      rw [flatMap_singleton_fst hper]
    exact congrArg (fun l => (l.drop ((filters.page - 1) * filters.pageSize).toNat).take
      filters.pageSize.toNat) hsm
  · exact (hmeta _ _ _).1
  · exact (hmeta _ _ _).2.1
  · intro hne
    rw [(hmeta _ _ _).2.2]
    have hrows : ¬ (((insSort (resolveLe "id")
        ((db.recipes.filter (getAllFilter db nm ings eqs pt atv)).flatMap (fun row =>
          if (db.recipeImages.filter
              (fun im => im.recipeId == row.id && im.imageType.isMain)).isEmpty then
            [(row, (none : Option String))]
          else (db.recipeImages.filter
            (fun im => im.recipeId == row.id && im.imageType.isMain)).map
              (fun im => (row, some im.url))))).drop
          ((filters.page - 1) * filters.pageSize).toNat).take
          filters.pageSize.toNat).isEmpty = true := by
      intro he
      rw [List.isEmpty_iff] at he
      rw [he] at hne
      exact hne rfl
    rw [if_neg hrows, insSort_length]
    have := congrArg List.length (flatMap_singleton_fst hper
      (db.recipes.filter (getAllFilter db nm ings eqs pt atv)))
    rw [List.length_map] at this
    rw [this]
  · intro he
    rw [(hmeta _ _ _).2.2]
    rw [List.map_eq_nil_iff] at he
    rw [he]
    rfl

/-- Every aggregate returned by `GetAll` is summary-only: the three child
collections stay nil. -/
theorem getAll_rows_summary {db : DB} {nm : String} {ings eqs : List String}
    {pt atv : Int} {filters : Filters} {out : List Recipe} {md : Metadata}
    (h : RecipeModel.GetAll db nm ings eqs pt atv filters = .ok (out, md)) :
    ∀ g ∈ out, g.ingredients = none ∧ g.requiredEquipment = none ∧
      g.instructions = none := by
  unfold RecipeModel.GetAll at h
  dsimp only at h
  split at h
  · exact absurd h (by simp)
  · simp only [Except.ok.injEq, Prod.mk.injEq] at h
    obtain ⟨hout, -⟩ := h
    subst hout
    intro g hg
    obtain ⟨rw₀, -, rfl⟩ := List.mem_map.mp hg
    exact ⟨rfl, rfl, rfl⟩

/-- Every aggregate returned by `GetAll` stems from a stored row that passes
the filter predicate, and reports that row's scalar columns. -/
theorem getAll_mem_filter {db : DB} {nm : String} {ings eqs : List String}
    {pt atv : Int} {filters : Filters} {out : List Recipe} {md : Metadata}
    (h : RecipeModel.GetAll db nm ings eqs pt atv filters = .ok (out, md)) :
    ∀ g ∈ out, ∃ row ∈ db.recipes,
      getAllFilter db nm ings eqs pt atv row = true ∧ g.id = row.id ∧
      g.prepTime = intervalToDuration row.prepTime ∧
      g.activeTime = intervalToDuration row.activeTime := by
  unfold RecipeModel.GetAll at h
  dsimp only at h
  split at h
  · exact absurd h (by simp)
  · simp only [Except.ok.injEq, Prod.mk.injEq] at h
    obtain ⟨hout, -⟩ := h
    subst hout
    intro g hg
    obtain ⟨rw₀, hrw, rfl⟩ := List.mem_map.mp hg
    have hsorted := List.mem_of_mem_drop (List.mem_of_mem_take hrw)
    rw [mem_insSort] at hsorted
    obtain ⟨row, hrowF, hmem⟩ := List.mem_flatMap.mp hsorted
    have h1 : rw₀.1 = row := by
      by_cases hm : (db.recipeImages.filter
          (fun im => im.recipeId == row.id && im.imageType.isMain)).isEmpty = true
      · rw [if_pos hm] at hmem
        rw [List.mem_singleton] at hmem
        rw [hmem]
      · rw [if_neg hm] at hmem
        obtain ⟨im, -, heq⟩ := List.mem_map.mp hmem
        rw [← heq]
    obtain ⟨hrowMem, hrowPred⟩ := List.mem_filter.mp hrowF
    exact ⟨row, hrowMem, hrowPred, by rw [← h1], by rw [← h1], by rw [← h1]⟩

/-! ### The claims -/

/-- C1: optimistic locking of `Update` (amended).  For a payload that passes
the check constraints and repeats no ingredient or equipment name, an
`Update` carrying the stored `(id, version)` succeeds, returns `v+1` and
stores a row with version `v+1`; an `Update` whose `(id, version)` matches no
stored row returns `EditConflict` with the store untouched; and every failing
`Update` leaves the store unchanged.  (The unamended universal success claim
is refuted by a payload repeating an ingredient name, which violates the
junction primary key.) -/
theorem c1_optimistic_locking {db : DB} {r : Recipe} (h : Inv db)
    (hprep : 0 ≤ r.prepTime) (hactive : 0 ≤ r.activeTime) (hserv : 0 ≤ r.servings)
    (hnamesI : ((r.ingredients.getD []).map IngredientEntry.ingredient).Nodup)
    (hnamesE : (r.requiredEquipment.getD []).Nodup) :
    (db.recipes.any (fun row => row.id == r.id && row.version == r.version) = true →
      RecipeModel.Update noFail db r = (.ok (r.version + 1), updateEffect db r) ∧
      ∃ row' ∈ (updateEffect db r).recipes, row'.id = r.id ∧
        row'.version = r.version + 1) ∧
    ((∀ row ∈ db.recipes, ¬(row.id = r.id ∧ row.version = r.version)) →
      RecipeModel.Update noFail db r = (.error .editConflict, db)) ∧
    (∀ (fail : Nat → Bool) (e : Err) (db₂ : DB),
      RecipeModel.Update fail db r = (.error e, db₂) → db₂ = db) := by
  refine ⟨?_, ?_, fun fail e db₂ hupd => Update_error hupd⟩
  · intro hmatch
    refine ⟨Update_total hmatch (rowChecksOk_of_nonneg hprep hactive hserv)
      h.ing h.eqp hnamesI hnamesE h.linkImgBound, ?_⟩
    obtain ⟨row, hrowMem, hpred⟩ := List.any_eq_true.mp hmatch
    simp only [Bool.and_eq_true, beq_iff_eq] at hpred
    refine ⟨updRow r row, ?_, hpred.1, ?_⟩
    · show updRow r row ∈ (updateEffect db r).recipes
      unfold updateEffect
      dsimp only
      rw [List.mem_map]
      refine ⟨row, hrowMem, ?_⟩
      rw [if_pos (by simp [hpred.1, hpred.2])]
      rfl
    · show row.version + 1 = r.version + 1
      rw [hpred.2]
  · intro hnone
    apply Update_noMatch
    rw [List.any_eq_false]
    intro row hrow
    simp only [Bool.and_eq_true, beq_iff_eq, not_and]
    intro h1 h2
    exact hnone row hrow ⟨h1, h2⟩

theorem c1_optimistic_locking_witness :
    dbSeed.recipes.any (fun row => row.id == rUpd1.id && row.version == rUpd1.version) = true ∧
    (RecipeModel.Update noFail dbSeed rUpd1 =
      (.ok (rUpd1.version + 1), updateEffect dbSeed rUpd1) ∧
    ∃ row' ∈ (updateEffect dbSeed rUpd1).recipes, row'.id = rUpd1.id ∧
      row'.version = rUpd1.version + 1) :=
  ⟨by decide, (c1_optimistic_locking (Inv_execOps _ Inv_emptyDB) (by decide) (by decide)
    (by decide) (by decide) (by decide)).1 (by decide)⟩

/-- A stored recipe at version 1 and an update carrying version 1 whose
payload names `salt` twice: the update does not succeed but fails with the
junction primary-key violation, refuting the unamended universal success
claim. -/
theorem c1_optimistic_locking_counterexample :
    dbSeed.recipes.any (fun row => row.id == rDup.id && row.version == rDup.version) = true ∧
    RecipeModel.Update noFail dbSeed rDup = (.error .storeErr, dbSeed) := by decide

/-- C2: insert/get round trip (amended).  A fault-free insert of a valid
payload with distinct ingredient names, distinct equipment names succeeds and
the fetched aggregate carries every scalar field back, with version 1 and
store-assigned id and creation time; the collections come back in the
reader's orders (ingredients and equipment sorted by name, instructions by
step number) rather than input order, with store-assigned child ids, and the
unpersisted `Creator`/`Public` fields come back as zero values.  (The
unamended claim of equality in every field including collection order is
refuted by an unsorted equipment list and a set creator.) -/
theorem c2_insert_get_roundtrip {db : DB} {r : Recipe} (h : Inv db)
    (hprep : 0 ≤ r.prepTime) (hactive : 0 ≤ r.activeTime) (hserv : 0 ≤ r.servings)
    (hnamesI : ((r.ingredients.getD []).map IngredientEntry.ingredient).Nodup)
    (hnamesE : (r.requiredEquipment.getD []).Nodup) :
    RecipeModel.Insert noFail db r =
      (.ok (db.nextRecipeId, db.now, 1), insertEffect db r) ∧
    ∃ g, (RecipeModel.Get (insertEffect db r) db.nextRecipeId).1 = .ok g ∧
      g.id = db.nextRecipeId ∧ g.createdAt = db.now ∧ g.version = 1 ∧
      g.name = r.name ∧ g.description = r.description ∧ g.notes = r.notes ∧
      g.sourceURL = r.sourceURL ∧ g.displayURL = r.displayURL ∧
      g.prepTime = r.prepTime ∧ g.activeTime = r.activeTime ∧
      g.servings = r.servings ∧ g.creator = "" ∧ g.public = false ∧
      (∃ l, g.ingredients = some l ∧
        l.map entryData = (insSort entryNameLe (r.ingredients.getD [])).map entryData) ∧
      g.requiredEquipment = some (insSort strLe (r.requiredEquipment.getD [])) ∧
      (∃ l, g.instructions = some l ∧
        l.map stepData =
          (insSort stepNumberLe (r.instructions.getD [])).map stepData) :=
  insert_get_roundtrip h hprep hactive hserv hnamesI hnamesE

theorem c2_insert_get_roundtrip_witness :
    ((rRound.ingredients.getD []).map IngredientEntry.ingredient).Nodup ∧
    (RecipeModel.Insert noFail emptyDB rRound =
      (.ok (emptyDB.nextRecipeId, emptyDB.now, 1), insertEffect emptyDB rRound) ∧
    ∃ g, (RecipeModel.Get (insertEffect emptyDB rRound) emptyDB.nextRecipeId).1 = .ok g ∧
      g.id = emptyDB.nextRecipeId ∧ g.createdAt = emptyDB.now ∧ g.version = 1 ∧
      g.name = rRound.name ∧ g.description = rRound.description ∧ g.notes = rRound.notes ∧
      g.sourceURL = rRound.sourceURL ∧ g.displayURL = rRound.displayURL ∧
      g.prepTime = rRound.prepTime ∧ g.activeTime = rRound.activeTime ∧
      g.servings = rRound.servings ∧ g.creator = "" ∧ g.public = false ∧
      (∃ l, g.ingredients = some l ∧
        l.map entryData = (insSort entryNameLe (rRound.ingredients.getD [])).map entryData) ∧
      g.requiredEquipment = some (insSort strLe (rRound.requiredEquipment.getD [])) ∧
      (∃ l, g.instructions = some l ∧
        l.map stepData =
          (insSort stepNumberLe (rRound.instructions.getD [])).map stepData)) :=
  ⟨by decide, c2_insert_get_roundtrip Inv_emptyDB (by decide) (by decide) (by decide)
    (by decide) (by decide)⟩

/-- A payload whose equipment list is `["pot", "board"]` and whose creator is
`"me"` reads back with equipment `["board", "pot"]` and creator `""`,
refuting the unamended field-for-field round-trip claim. -/
theorem c2_insert_get_roundtrip_counterexample :
    ((getOk (RecipeModel.Get (RecipeModel.Insert noFail emptyDB rFlip).2 1).1).map
      Recipe.requiredEquipment) = some (some ["board", "pot"]) ∧
    rFlip.requiredEquipment = some ["pot", "board"] ∧
    ((getOk (RecipeModel.Get (RecipeModel.Insert noFail emptyDB rFlip).2 1).1).map
      Recipe.creator) = some "" ∧ rFlip.creator = "me" := by decide

/-- C3: transactional rollback.  For every fault oracle (hence every point of
failure inside the transaction, including while building child collections),
a failing `Insert` or `Update` leaves the stored state exactly as it was
before the operation began. -/
theorem c3_transactional_rollback (fail : Nat → Bool) (db : DB) (r : Recipe)
    (e : Err) (db₂ : DB) :
    (RecipeModel.Insert fail db r = (.error e, db₂) → db₂ = db) ∧
    (RecipeModel.Update fail db r = (.error e, db₂) → db₂ = db) :=
  ⟨Insert_error, Update_error⟩

theorem c3_transactional_rollback_witness :
    RecipeModel.Insert fail3 emptyDB rRound =
      (.error .storeErr, (RecipeModel.Insert fail3 emptyDB rRound).2) ∧
    (RecipeModel.Insert fail3 emptyDB rRound).2 = emptyDB :=
  ⟨by decide, (c3_transactional_rollback fail3 emptyDB rRound .storeErr
    (RecipeModel.Insert fail3 emptyDB rRound).2).1 (by decide)⟩

/-- C4: pagination of `GetAll` (amended).  Under the at-most-one-main-image
invariant and ascending-id sort, every page `>= 1` of size `1..100` returns
exactly the `LIMIT pageSize OFFSET (page-1)*pageSize` slice of the id-sorted
filtered rows; the metadata reports the requested page and page size, and its
`total_records` equals the pre-pagination match count whenever the returned
page is non-empty — but is `0` on an empty page, which refutes the unamended
unconditional total-records claim. -/
theorem c4_pagination (db : DB) (nm : String) (ings eqs : List String)
    (pt atv : Int) (filters : Filters)
    (hmains : ((db.recipeImages.filter (fun im => im.imageType.isMain)).map
      ImageRow.recipeId).Nodup)
    (hsort : filters.sort = "id") (hpage : 1 ≤ filters.page)
    (hps : 1 ≤ filters.pageSize) (hps100 : filters.pageSize ≤ 100) :
    ∃ out md,
      RecipeModel.GetAll db nm ings eqs pt atv filters = .ok (out, md) ∧
      out.map Recipe.id =
        (((insSort rowIdLe (db.recipes.filter
            (getAllFilter db nm ings eqs pt atv))).map RecipeRow.id).drop
          ((filters.page - 1) * filters.pageSize).toNat).take
          filters.pageSize.toNat ∧
      md.currentPage = filters.page ∧ md.pageSize = filters.pageSize ∧
      (out ≠ [] → md.totalRecords =
        ((db.recipes.filter (getAllFilter db nm ings eqs pt atv)).length : Int)) ∧
      (out = [] → md.totalRecords = 0) :=
  getAll_id_slice db nm ings eqs pt atv filters hmains hsort hpage hps

theorem c4_pagination_witness :
    (1 : Int) ≤ fC4.pageSize ∧
    ∃ out md,
      RecipeModel.GetAll dbC4 "" [] [] 0 0 fC4 = .ok (out, md) ∧
      out.map Recipe.id =
        (((insSort rowIdLe (dbC4.recipes.filter
            (getAllFilter dbC4 "" [] [] 0 0))).map RecipeRow.id).drop
          ((fC4.page - 1) * fC4.pageSize).toNat).take fC4.pageSize.toNat ∧
      md.currentPage = fC4.page ∧ md.pageSize = fC4.pageSize ∧
      (out ≠ [] → md.totalRecords =
        ((dbC4.recipes.filter (getAllFilter dbC4 "" [] [] 0 0)).length : Int)) ∧
      (out = [] → md.totalRecords = 0) :=
  ⟨by decide, c4_pagination dbC4 "" [] [] 0 0 fC4 (by decide) rfl (by decide)
    (by decide) (by decide)⟩

/-- With three stored recipes all matching the (empty) filters, requesting
page 5 of size 10 returns an empty page whose metadata reports
`total_records = 0` although 3 recipes match, refuting the unamended claim
that `total_records` always equals the pre-pagination match count. -/
theorem c4_pagination_counterexample :
    ((RecipeModel.GetAll dbC4 "" [] [] 0 0 fC4e).toOption.map
      (fun p => (p.1.length, p.2.totalRecords))) = some (0, 0) ∧
    (dbC4.recipes.filter (getAllFilter dbC4 "" [] [] 0 0)).length = 3 := by decide

/-- C5: reference-table deduplication.  In every state reachable from the
empty store, ingredient and equipment reference names are globally unique;
concretely, inserting two recipes that each reference the ingredient `salt`
yields exactly one reference row named `salt` and one junction row per
recipe. -/
theorem c5_reference_dedup (ops : List Op) :
    (((execOps emptyDB ops).ingredients.map IngredientRow.name).Nodup ∧
     ((execOps emptyDB ops).equipment.map EquipmentRow.name).Nodup) ∧
    dbSalt.ingredients = [{ id := 1, name := "salt" }] ∧
    dbSalt.recipeIngredients.map (fun x => (x.recipeId, x.ingredientId)) =
      [(1, 1), (2, 1)] := by
  have h := Inv_execOps ops Inv_emptyDB
  exact ⟨⟨h.ing.1, h.eqp.1⟩, by decide, by decide⟩

/-- C6: the duration codec.  A written recipe row stores a zero prep or
active duration as NULL (and only a zero duration becomes NULL, on both the
insert and update write paths, which share `durationToInterval`); and a
stored row whose prep interval is NULL is read back by `Get` with the zero
prep duration, so a zero and an omitted duration are indistinguishable after
a write/read cycle. -/
theorem c6_zero_duration_null (db : DB) (r : Recipe) (id : Int) (row : RecipeRow)
    (hnd : (db.recipes.map RecipeRow.id).Nodup) (hrow : row ∈ db.recipes)
    (hid : row.id = id) (hpos : 1 ≤ id) (hnull : row.prepTime = none) :
    ((insertedRecipeRow db r).prepTime = none ↔ r.prepTime = 0) ∧
    ((insertedRecipeRow db r).activeTime = none ↔ r.activeTime = 0) ∧
    (durationToInterval r.prepTime = none ↔ r.prepTime = 0) ∧
    (∃ g n, RecipeModel.Get db id = (.ok g, n) ∧ g.prepTime = 0) := by
  have hdi : ∀ d : Int, durationToInterval d = none ↔ d = 0 := by
    intro d
    unfold durationToInterval
    split
    · next hd => simp [hd]
    · next hd => simp [hd]
  refine ⟨hdi r.prepTime, hdi r.activeTime, hdi r.prepTime, ?_⟩
  obtain ⟨g, n, hget, hp, -, -, -, -, -, -⟩ := get_found hnd hrow hid hpos
  refine ⟨g, n, hget, ?_⟩
  rw [hp, hnull]
  rfl

theorem c6_zero_duration_null_witness :
    ({ rowBase with id := 1 } : RecipeRow).prepTime = none ∧
    (((insertedRecipeRow dbNull rRound).prepTime = none ↔ rRound.prepTime = 0) ∧
     ((insertedRecipeRow dbNull rRound).activeTime = none ↔ rRound.activeTime = 0) ∧
     (durationToInterval rRound.prepTime = none ↔ rRound.prepTime = 0) ∧
     (∃ g n, RecipeModel.Get dbNull 1 = (.ok g, n) ∧ g.prepTime = 0)) :=
  ⟨rfl, c6_zero_duration_null dbNull rRound 1 { rowBase with id := 1 }
    (by decide) (by decide) rfl (by decide) rfl⟩

/-- C7: the not-found paths of `Get`.  Every id below 1 fails with `NotFound`
before issuing a single store query (query count 0), and every positive id
matching no stored recipe row fails with `NotFound` after the one row
query. -/
theorem c7_get_notfound (db : DB) (id : Int) :
    (id < 1 → RecipeModel.Get db id = (.error .notFound, 0)) ∧
    (1 ≤ id → (∀ row ∈ db.recipes, row.id ≠ id) →
      RecipeModel.Get db id = (.error .notFound, 1)) := by
  constructor
  · intro h
    unfold RecipeModel.Get
    rw [if_pos h]
  · intro h1 h2
    have hfind : db.recipes.find? (fun row => row.id == id) = none := by
      rw [find?_eq_none_iff]
      intro row hrow
      simp only [beq_iff_eq]
      exact h2 row hrow
    unfold RecipeModel.Get
    rw [if_neg (by omega), hfind]

theorem c7_get_notfound_witness :
    ((0 : Int) < 1 ∧ RecipeModel.Get dbC4 0 = (.error .notFound, 0)) ∧
    ((1 : Int) ≤ 99999 ∧ RecipeModel.Get dbC4 99999 = (.error .notFound, 1)) :=
  ⟨⟨by decide, (c7_get_notfound dbC4 0).1 (by decide)⟩,
   ⟨by decide, (c7_get_notfound dbC4 99999).2 (by decide) (by decide)⟩⟩

/-- C8: image invariants (amended).  In every state reachable from the empty
store, every recipe has at most one `main` image, and every image is linked
to at most one instruction step.  (The unamended claim that every `step`
image is linked to exactly one instruction is refuted by an update: the old
instruction rows cascade away with their junction rows, but the old `step`
image rows stay behind with no link at all.) -/
theorem c8_image_invariants (ops : List Op) :
    (((execOps emptyDB ops).recipeImages.filter (fun im => im.imageType.isMain)).map
      ImageRow.recipeId).Nodup ∧
    ((execOps emptyDB ops).instructionImages.map InstructionImageRow.imageId).Nodup := by
  have h := Inv_execOps ops Inv_emptyDB
  exact ⟨h.mains, h.linkImgIds⟩

/-- After inserting a recipe with one stepped image and updating it to an
instruction-free payload, the store holds one `step` image row, no
instruction rows, and no instruction-image junction rows: the `step` image is
linked to zero instructions, refuting the unamended exactly-one-link
claim. -/
theorem c8_image_invariants_counterexample :
    (dbOrphan.recipeImages.filter (fun im => im.imageType.isStep)).length = 1 ∧
    dbOrphan.recipeInstructions.length = 0 ∧
    (dbOrphan.recipeImages.filter (fun im => im.imageType.isStep &&
      (dbOrphan.instructionImages.filter (fun l => l.imageId == im.id)).isEmpty)).length
      = 1 := by decide

/-- C9: summary rows versus full aggregates.  Every recipe returned by
`GetAll` leaves its three child collections nil, while `Get` on a stored row
returns all three collections non-nil (possibly empty). -/
theorem c9_summary_vs_full (db : DB) (nm : String) (ings eqs : List String)
    (pt atv : Int) (filters : Filters) (id : Int) (row : RecipeRow)
    (hnd : (db.recipes.map RecipeRow.id).Nodup) (hrow : row ∈ db.recipes)
    (hid : row.id = id) (hpos : 1 ≤ id) :
    (∀ out md, RecipeModel.GetAll db nm ings eqs pt atv filters = .ok (out, md) →
      ∀ g ∈ out, g.ingredients = none ∧ g.requiredEquipment = none ∧
        g.instructions = none) ∧
    (∃ g n, RecipeModel.Get db id = (.ok g, n) ∧
      (∃ l, g.ingredients = some l) ∧ (∃ l, g.requiredEquipment = some l) ∧
      (∃ l, g.instructions = some l)) := by
  refine ⟨fun out md hga => getAll_rows_summary hga, ?_⟩
  obtain ⟨g, n, hget, -, -, -, -, h1, h2, h3⟩ := get_found hnd hrow hid hpos
  exact ⟨g, n, hget, h1, h2, h3⟩

theorem c9_summary_vs_full_witness :
    (1 : Int) ≤ 1 ∧
    ((∀ out md, RecipeModel.GetAll dbC4 "" [] [] 0 0 fC4 = .ok (out, md) →
      ∀ g ∈ out, g.ingredients = none ∧ g.requiredEquipment = none ∧
        g.instructions = none) ∧
    (∃ g n, RecipeModel.Get dbC4 1 = (.ok g, n) ∧
      (∃ l, g.ingredients = some l) ∧ (∃ l, g.requiredEquipment = some l) ∧
      (∃ l, g.instructions = some l))) :=
  ⟨by decide, c9_summary_vs_full dbC4 "" [] [] 0 0 fC4 1 { rowBase with id := 1 }
    (by decide) (by decide) rfl (by decide)⟩

/-- C10: NULL times and nonzero time filters.  With a nonzero maximum
prep-time filter, every stored recipe whose prep interval is NULL (the
stored form of a zero duration) is excluded from every `GetAll` result, even
though `Get` reports that recipe's prep time as the zero duration, which
satisfies the `<= maximum` comparison. -/
theorem c10_null_time_excluded (db : DB) (nm : String) (ings eqs : List String)
    (pt atv : Int) (filters : Filters) (id : Int) (row : RecipeRow)
    (hnd : (db.recipes.map RecipeRow.id).Nodup) (hrow : row ∈ db.recipes)
    (hid : row.id = id) (hpos : 1 ≤ id) (hnull : row.prepTime = none)
    (hpt : pt ≠ 0) (hptnn : 0 ≤ pt) :
    (∀ out md, RecipeModel.GetAll db nm ings eqs pt atv filters = .ok (out, md) →
      ∀ g ∈ out, g.id ≠ id) ∧
    (∃ g n, RecipeModel.Get db id = (.ok g, n) ∧ g.prepTime = 0 ∧ g.prepTime ≤ pt) := by
  constructor
  · intro out md hga g hg hgid
    obtain ⟨row', hrow'Mem, hpred, hg_id, -, -⟩ := getAll_mem_filter hga g hg
    have hreq : row' = row := by
      apply List.inj_on_of_nodup_map hnd hrow'Mem hrow
      rw [← hg_id, hgid, hid]
    rw [hreq] at hpred
    unfold getAllFilter at hpred
    rw [hnull] at hpred
    simp only [Bool.and_eq_true, Bool.or_eq_true, beq_iff_eq] at hpred
    rcases hpred.1.1.1.2 with h0 | hfalse
    · exact hpt h0
    · simp at hfalse
  · obtain ⟨g, n, hget, hp, -, -, -, -, -, -⟩ := get_found hnd hrow hid hpos
    refine ⟨g, n, hget, ?_, ?_⟩
    · rw [hp, hnull]
      rfl
    · rw [hp, hnull]
      exact hptnn

theorem c10_null_time_excluded_witness :
    ({ rowBase with id := 2 } : RecipeRow).prepTime = none ∧
    ((∀ out md, RecipeModel.GetAll dbC10 "" [] [] 100 0 fC4 = .ok (out, md) →
      ∀ g ∈ out, g.id ≠ 2) ∧
    (∃ g n, RecipeModel.Get dbC10 2 = (.ok g, n) ∧ g.prepTime = 0 ∧ g.prepTime ≤ 100)) :=
  ⟨rfl, c10_null_time_excluded dbC10 "" [] [] 100 0 fC4 2 { rowBase with id := 2 }
    (by decide) (by decide) rfl (by decide) rfl (by decide) (by decide)⟩

end Eatinn
